import Mathlib

/-!
Verification of the interview slot booking service (Express + Mongoose).

The development shallowly embeds the data model (src/src/models/User.js,
Slot.js, Booking.js), the controllers (the booking controller and the slot
controller, plus the user-facing middleware in src/src/middleware/auth.js)
and the route wiring, and proves the documented invariants and
error-handling properties about them.

Modelling conventions:
- MongoDB ObjectIds are modelled as natural numbers; a raw request id is an
  Option Nat, where none stands for a string that fails
  mongoose.Types.ObjectId.isValid.
- Date instants are modelled as integers (their epoch values); all the
  source comparisons on dates go through valueOf, so integer comparison is
  faithful.
- The two Mongo collections are lists of records plus a fresh-id counter.
  Mongo guarantees _id uniqueness and the declared unique index on
  (slotId, candidateId); the predicate WF records exactly those
  store-level guarantees, and every operation is proved to preserve it.
- findOneAndUpdate / save update the single document matching an _id; with
  unique ids this equals a map over the list that rewrites the matching
  record.
- A Mongo multi-document transaction either commits all its writes or none;
  an aborted transaction is embedded by returning the pre-transaction
  database value.
- Fields that no claim touches (tags, bookedAt, timestamps) are omitted.
-/

namespace BookingApp

/-- Role enum of the User schema (src/src/models/User.js). -/
inductive Role
  | ADMIN
  | CANDIDATE
  deriving DecidableEq, Repr

/-- User record (src/src/models/User.js): paths name, email, role, plus the
automatic _id. -/
structure User where
  id : Nat
  name : String
  email : String
  role : Role
  deriving DecidableEq, Repr

/-- Booking status enum (src/src/models/Booking.js). -/
inductive BStatus
  | BOOKED
  | CANCELLED
  deriving DecidableEq, Repr

/-- Slot record (src/src/models/Slot.js). -/
structure Slot where
  id : Nat
  startTime : Int
  endTime : Int
  capacity : Int
  bookedCount : Int
  createdBy : Nat
  deriving DecidableEq, Repr

/-- Booking record (src/src/models/Booking.js). -/
structure Booking where
  id : Nat
  slotId : Nat
  candidateId : Nat
  status : BStatus
  deriving DecidableEq, Repr

/-- The two Mongo collections plus a fresh ObjectId source. -/
structure DB where
  slots : List Slot
  bookings : List Booking
  nextId : Nat
  deriving DecidableEq, Repr

/-- Slot.findById / Slot.exists on an id. -/
def findSlot (db : DB) (sid : Nat) : Option Slot :=
  db.slots.find? (fun s => decide (s.id = sid))

/-- Booking.findById on an id. -/
def findBooking (db : DB) (bid : Nat) : Option Booking :=
  db.bookings.find? (fun b => decide (b.id = bid))

/-- Slot.findOneAndUpdate with filter
\x7b _id: slotId, $expr: \x7b $lt: [bookedCount, capacity] \x7d \x7d and update
\x7b $inc: \x7b bookedCount: 1 \x7d \x7d, option new: true (bookingController,
createBooking step 2). Returns the updated document when the filter
matched, and the database after the update. -/
def condIncSlot (db : DB) (sid : Nat) : Option Slot × DB :=
  match db.slots.find? (fun s => decide (s.id = sid ∧ s.bookedCount < s.capacity)) with
  | none => (none, db)
  | some s =>
    (some { s with bookedCount := s.bookedCount + 1 },
     { db with slots := db.slots.map (fun t =>
         if t.id = s.id then { s with bookedCount := s.bookedCount + 1 } else t) })

/-- Slot.findByIdAndUpdate with $inc: \x7b bookedCount: -1 \x7d
(bookingController, cancelBooking step 6). A missing slot matches nothing
and is no error. -/
def decSlot (db : DB) (sid : Nat) : DB :=
  match db.slots.find? (fun s => decide (s.id = sid)) with
  | none => db
  | some s =>
    { db with slots := db.slots.map (fun t =>
        if t.id = s.id then { s with bookedCount := s.bookedCount - 1 } else t) }

/-- Outcomes of POST /bookings (createBooking), one per return site:
400 invalid id, 409 duplicate (fast-fail and the 11000 safety net share one
payload), 409 capacity exceeded, 404 slot missing, 201 created. -/
inductive BookRes
  | invalidIdFmt
  | duplicateBooking
  | slotFull
  | slotNotFound
  | created
  deriving DecidableEq, Repr

/-- Transactional tail of createBooking (steps 2 and 3 plus the catch
handler): the conditional counter update, the distinguishing existence
check on failure, and the Booking insert whose unique (slotId, candidateId)
index violation raises the 11000 error that aborts the transaction. An
abort returns the pre-transaction database. -/
def createBookingTxn (db : DB) (sid cid : Nat) : BookRes × DB :=
  match condIncSlot db sid with
  | (none, _) =>
    if (findSlot db sid).isSome then (.slotFull, db) else (.slotNotFound, db)
  | (some _, db2) =>
    if db2.bookings.any (fun b => decide (b.slotId = sid ∧ b.candidateId = cid)) then
      (.duplicateBooking, db)
    else
      (.created, { db2 with
        bookings := db2.bookings ++ [⟨db2.nextId, sid, cid, BStatus.BOOKED⟩],
        nextId := db2.nextId + 1 })

/-- POST /bookings handler (bookingController.createBooking): ObjectId
validation, the non-transactional fast-fail duplicate lookup (rejecting
only a BOOKED record), then the transactional tail. -/
def createBooking (db : DB) (rawSlotId : Option Nat) (candidateId : Nat) : BookRes × DB :=
  match rawSlotId with
  | none => (.invalidIdFmt, db)
  | some sid =>
    match db.bookings.find? (fun b => decide (b.slotId = sid ∧ b.candidateId = candidateId)) with
    | some b =>
      if b.status = BStatus.BOOKED then (.duplicateBooking, db)
      else createBookingTxn db sid candidateId
    | none => createBookingTxn db sid candidateId

/-- Outcomes of POST /bookings/:id/cancel (cancelBooking), one per return
site: 400 invalid id, 404 missing, 403 not owner, 400 already cancelled,
200 cancelled. -/
inductive CancelRes
  | invalidIdFmt
  | notFound
  | forbidden
  | alreadyCancelled
  | cancelled
  deriving DecidableEq, Repr

/-- JavaScript strict inequality between booking.candidateId.toString()
(always a string) and the value of req.user.userId (possibly undefined,
modelled as none): a string is never strictly equal to undefined, and two
strings compare by value. -/
def strictNe (candidateId : Nat) (userId : Option Nat) : Bool :=
  match userId with
  | none => true
  | some u => decide (candidateId ≠ u)

/-- POST /bookings/:id/cancel handler (bookingController.cancelBooking).
The userId argument is the value of the expression req.user.userId read at
the top of the handler; the route wiring fixes it, see cancelRoute. -/
def cancelBooking (db : DB) (rawId : Option Nat) (userId : Option Nat) : CancelRes × DB :=
  match rawId with
  | none => (.invalidIdFmt, db)
  | some bid =>
    match db.bookings.find? (fun b => decide (b.id = bid)) with
    | none => (.notFound, db)
    | some booking =>
      if strictNe booking.candidateId userId then (.forbidden, db)
      else if booking.status = BStatus.CANCELLED then (.alreadyCancelled, db)
      else
        (.cancelled, decSlot
          { db with bookings := db.bookings.map (fun b =>
              if b.id = bid then { b with status := BStatus.CANCELLED } else b) }
          booking.slotId)

/-- Overlap query document built by checkOverlap (slotController): one
clause per $or disjunct over the stored slot, the createdBy restriction,
and the optional _id: \x7b $ne \x7d exclusion. The stored slot fields are
compared against the candidate interval [startTime, endTime). -/
def overlapQuery (adminId : Nat) (startTime endTime : Int) (excludeSlotId : Option Nat)
    (s : Slot) : Bool :=
  decide (s.createdBy = adminId) &&
  ((decide (s.startTime < endTime) && decide (s.startTime ≥ startTime)) ||
   (decide (s.endTime > startTime) && decide (s.endTime ≤ endTime)) ||
   (decide (s.startTime ≤ startTime) && decide (s.endTime ≥ endTime))) &&
  (match excludeSlotId with
   | none => true
   | some e => decide (s.id ≠ e))

/-- Slot.findOne over the overlap query, coerced to a boolean
(slotController.checkOverlap). -/
def checkOverlap (db : DB) (adminId : Nat) (startTime endTime : Int)
    (excludeSlotId : Option Nat) : Bool :=
  (db.slots.find? (overlapQuery adminId startTime endTime excludeSlotId)).isSome

/-- Interval conflict as the specification words it: [s1,e1) and [s2,e2)
conflict iff they are not disjoint, that is s1 < e2 and s2 < e1. This is
the spec-side definition that checkOverlap is compared against. -/
def specOverlap (s1 e1 s2 e2 : Int) : Prop :=
  s1 < e2 ∧ s2 < e1

/-- Outcomes of POST /slots (slotController.createSlot). -/
inductive SlotCreateRes
  | invalidTimeRange
  | invalidCapacity
  | overlapConflict
  | created (s : Slot)
  deriving DecidableEq, Repr

/-- POST /slots handler (slotController.createSlot): time-range and
capacity validation, the overlap check for the creating admin, then the
insert with bookedCount defaulting to 0. -/
def createSlot (db : DB) (adminId : Nat) (startTime endTime : Int) (capacity : Int) :
    SlotCreateRes × DB :=
  if startTime ≥ endTime then (.invalidTimeRange, db)
  else if capacity < 1 then (.invalidCapacity, db)
  else if checkOverlap db adminId startTime endTime none then (.overlapConflict, db)
  else
    (.created ⟨db.nextId, startTime, endTime, capacity, 0, adminId⟩,
     { db with
       slots := db.slots ++ [⟨db.nextId, startTime, endTime, capacity, 0, adminId⟩]
       nextId := db.nextId + 1 })

/-- Outcomes of PATCH /slots/:id (slotController.updateSlot).
validationFailed is the 500 produced when slot.save() fails mongoose schema
validation (capacity has min: 1 in src/src/models/Slot.js). -/
inductive SlotUpdateRes
  | notFound
  | forbidden
  | invalidTimeRange
  | overlapConflict
  | capacityConflict
  | validationFailed
  | updated (s : Slot)
  deriving DecidableEq, Repr

/-- Final slot.save() of updateSlot: mongoose runs the schema validators,
so a capacity below the schema minimum of 1 raises a ValidationError that
the catch block turns into a 500 with no write; otherwise the document is
persisted. -/
def saveSlot (db : DB) (s : Slot) : SlotUpdateRes × DB :=
  if s.capacity < 1 then (.validationFailed, db)
  else (.updated s, { db with slots := db.slots.map (fun t => if t.id = s.id then s else t) })

/-- Capacity section of updateSlot: when a capacity is requested, reject
with the 409 capacity conflict if it is below the current bookedCount,
otherwise set it on the document; then save. -/
def updateSlotCap (db : DB) (slot : Slot) (capacity : Option Int) : SlotUpdateRes × DB :=
  match capacity with
  | some c =>
    if c < slot.bookedCount then (.capacityConflict, db)
    else saveSlot db { slot with capacity := c }
  | none => saveSlot db slot

/-- PATCH /slots/:id handler (slotController.updateSlot): load, ownership
check, optional time change revalidated through checkOverlap excluding the
slot itself, optional capacity change, save. Failures before save leave
the stored document untouched even when the in-memory one was mutated. -/
def updateSlot (db : DB) (adminId sid : Nat) (startTime endTime : Option Int)
    (capacity : Option Int) : SlotUpdateRes × DB :=
  match db.slots.find? (fun s => decide (s.id = sid)) with
  | none => (.notFound, db)
  | some slot =>
    if slot.createdBy ≠ adminId then (.forbidden, db)
    else
      if startTime.isSome || endTime.isSome then
        if startTime.getD slot.startTime ≥ endTime.getD slot.endTime then (.invalidTimeRange, db)
        else if checkOverlap db adminId (startTime.getD slot.startTime)
            (endTime.getD slot.endTime) (some sid) then (.overlapConflict, db)
        else updateSlotCap db
          { slot with
            startTime := startTime.getD slot.startTime
            endTime := endTime.getD slot.endTime } capacity
      else updateSlotCap db slot capacity

/-- Authentication result of the x-user-id middleware. -/
inductive AuthOutcome
  | unauthenticated
  | ok (u : User)
  deriving DecidableEq, Repr

/-- authenticate middleware (src/src/middleware/auth.js): read the
x-user-id header, validate it, load the User, and attach that User
document to req.user. -/
def authenticate (users : List User) (header : Option Nat) : AuthOutcome :=
  match header with
  | none => .unauthenticated
  | some uid =>
    match users.find? (fun u => decide (u.id = uid)) with
    | none => .unauthenticated
    | some u => .ok u

/-- Value of the property access req.user.userId: the User schema declares
the paths name, email and role, plus the automatic _id; it has no userId
path, so on the attached mongoose document the access yields undefined. -/
def User.userId (_ : User) : Option Nat := none

/-- Outcomes of the composed route POST /bookings/:id/cancel. -/
inductive CancelRouteRes
  | unauthenticated
  | roleDenied
  | handled (r : CancelRes)
  deriving DecidableEq, Repr

/-- Route wiring of POST /bookings/:id/cancel
(src/src/routes/bookingRoutes.js): authenticate, authorize CANDIDATE, then
the cancelBooking handler, whose local userId is req.user.userId. -/
def cancelRoute (users : List User) (db : DB) (header rawId : Option Nat) :
    CancelRouteRes × DB :=
  match authenticate users header with
  | .unauthenticated => (.unauthenticated, db)
  | .ok u =>
    if u.role ≠ Role.CANDIDATE then (.roleDenied, db)
    else
      (.handled (cancelBooking db rawId (User.userId u)).1,
       (cancelBooking db rawId (User.userId u)).2)

/-- Number of Booking records that reference a slot and are BOOKED. -/
def activeCount (db : DB) (sid : Nat) : Nat :=
  db.bookings.countP (fun b => decide (b.slotId = sid ∧ b.status = BStatus.BOOKED))

/-- bookedCount of the slot with a given id, when it exists. -/
def slotCount (db : DB) (sid : Nat) : Option Int :=
  (findSlot db sid).map Slot.bookedCount

/-- Denormalization invariant: every slot's bookedCount equals the number
of BOOKED reservations referencing it. -/
def countInv (db : DB) : Prop :=
  ∀ s ∈ db.slots, s.bookedCount = (activeCount db s.id : Int)

/-- Occupancy bound: every slot's bookedCount lies between 0 and its
capacity. -/
def capInv (db : DB) : Prop :=
  ∀ s ∈ db.slots, 0 ≤ s.bookedCount ∧ s.bookedCount ≤ s.capacity

/-- Store-level guarantees Mongo provides: unique _ids in both
collections, the unique (slotId, candidateId) index on bookings, and
freshness of the ObjectId source over every id in use. -/
def WF (db : DB) : Prop :=
  db.slots.Pairwise (fun a b => a.id ≠ b.id) ∧
  db.bookings.Pairwise (fun a b => a.id ≠ b.id) ∧
  db.bookings.Pairwise (fun a b => a.slotId ≠ b.slotId ∨ a.candidateId ≠ b.candidateId) ∧
  (∀ s ∈ db.slots, s.id < db.nextId) ∧
  (∀ b ∈ db.bookings, b.id < db.nextId) ∧
  (∀ b ∈ db.bookings, b.slotId < db.nextId)

/-! Generic list machinery: splitting a list at the record found by
find?, rewriting the single matching record under a key-uniqueness
hypothesis, and counting through such an update. -/

theorem find?_split {α : Type} {p : α → Bool} {l : List α} {b : α}
    (h : l.find? p = some b) :
    ∃ l1 l2, l = l1 ++ b :: l2 ∧ ∀ x ∈ l1, p x = false := by
  induction l with
  | nil => simp [List.find?] at h
  | cons a t ih =>
    by_cases hpa : p a = true
    · rw [List.find?_cons_of_pos _ hpa] at h
      cases h
      exact ⟨[], t, rfl, by simp⟩
    · rw [List.find?_cons_of_neg _ hpa] at h
      obtain ⟨l1, l2, rfl, hl1⟩ := ih h
      refine ⟨a :: l1, l2, rfl, ?_⟩
      intro x hx
      rcases List.mem_cons.mp hx with hx | hx
      · subst hx; exact Bool.eq_false_iff.mpr hpa
      · exact hl1 x hx

theorem map_update_split {α β : Type} [DecidableEq β] (key : α → β) {l1 l2 : List α}
    {b : α} {k : β}
    (hpair : (l1 ++ b :: l2).Pairwise (fun x y => key x ≠ key y))
    (hk : key b = k) (g : α → α) :
    (∀ x ∈ l1, key x ≠ k) ∧ (∀ x ∈ l2, key x ≠ k) ∧
    (l1 ++ b :: l2).map (fun x => if key x = k then g x else x) = l1 ++ g b :: l2 := by
  rw [List.pairwise_append] at hpair
  obtain ⟨h1, h2, h12⟩ := hpair
  have hl1 : ∀ x ∈ l1, key x ≠ k := by
    intro x hx
    rw [← hk]
    exact h12 x hx b (List.mem_cons_self b l2)
  have hl2 : ∀ x ∈ l2, key x ≠ k := by
    intro x hx
    rw [← hk]
    exact fun he => (List.pairwise_cons.mp h2).1 x hx he.symm
  refine ⟨hl1, hl2, ?_⟩
  rw [List.map_append, List.map_cons]
  have e1 : l1.map (fun x => if key x = k then g x else x) = l1 := by
    conv_rhs => rw [← List.map_id l1]
    exact List.map_congr_left (fun x hx => by simp [hl1 x hx])
  have e2 : l2.map (fun x => if key x = k then g x else x) = l2 := by
    conv_rhs => rw [← List.map_id l2]
    exact List.map_congr_left (fun x hx => by simp [hl2 x hx])
  rw [e1, e2, if_pos hk]

theorem find?_middle {α : Type} {p : α → Bool} {l1 l2 : List α} {b : α}
    (h1 : ∀ x ∈ l1, p x = false) (hb : p b = true) :
    (l1 ++ b :: l2).find? p = some b := by
  induction l1 with
  | nil => simpa using List.find?_cons_of_pos l2 hb
  | cons a t ih =>
    rw [List.cons_append,
      List.find?_cons_of_neg _ (by simp [h1 a (List.mem_cons_self a t)])]
    exact ih (fun x hx => h1 x (List.mem_cons_of_mem a hx))

theorem find?_eq_of_mem_unique {α β : Type} [DecidableEq β] (key : α → β) {l : List α}
    {b : α} {p : α → Bool}
    (hpair : l.Pairwise (fun x y => key x ≠ key y)) (hb : b ∈ l)
    (hpb : p b = true) (hpk : ∀ x, p x = true → key x = key b) :
    l.find? p = some b := by
  induction l with
  | nil => simp at hb
  | cons a t ih =>
    obtain ⟨hhead, htail⟩ := List.pairwise_cons.mp hpair
    rcases List.mem_cons.mp hb with rfl | hbt
    · exact List.find?_cons_of_pos t hpb
    · have hpa : ¬p a = true := by
        intro hp
        exact hhead b hbt (hpk a hp)
      rw [List.find?_cons_of_neg _ hpa]
      exact ih htail hbt

theorem countP_append_cons {α : Type} (p : α → Bool) (l1 : List α) (x : α) (l2 : List α) :
    List.countP p (l1 ++ x :: l2) =
      List.countP p l1 + List.countP p l2 + (if p x then 1 else 0) := by
  rw [List.countP_append, List.countP_cons]
  omega

/-! Effect lemmas for the store primitives. -/

theorem condIncSlot_fst_none {db : DB} {sid : Nat}
    (h : (condIncSlot db sid).1 = none) :
    condIncSlot db sid = (none, db) ∧
    ∀ s ∈ db.slots, s.id = sid → ¬s.bookedCount < s.capacity := by
  cases hf : db.slots.find? (fun s => decide (s.id = sid ∧ s.bookedCount < s.capacity)) with
  | none =>
    refine ⟨by unfold condIncSlot; rw [hf], ?_⟩
    intro s hs hid hlt
    have hne := List.find?_eq_none.mp hf s hs
    simp only [decide_eq_true_eq] at hne
    exact hne ⟨hid, hlt⟩
  | some s =>
    exfalso
    have h2 : (condIncSlot db sid).1 = some { s with bookedCount := s.bookedCount + 1 } := by
      unfold condIncSlot
      rw [hf]
    rw [h] at h2
    exact Option.noConfusion h2

theorem condIncSlot_fst_some {db : DB} {sid : Nat} {s' : Slot}
    (hpair : db.slots.Pairwise (fun a b => a.id ≠ b.id))
    (h : (condIncSlot db sid).1 = some s') :
    ∃ s l1 l2,
      db.slots = l1 ++ s :: l2 ∧ s.id = sid ∧ s.bookedCount < s.capacity ∧
      s' = { s with bookedCount := s.bookedCount + 1 } ∧
      (∀ x ∈ l1, x.id ≠ sid) ∧ (∀ x ∈ l2, x.id ≠ sid) ∧
      condIncSlot db sid = (some s', { db with slots := l1 ++ s' :: l2 }) := by
  cases hf : db.slots.find? (fun s => decide (s.id = sid ∧ s.bookedCount < s.capacity)) with
  | none =>
    exfalso
    have h2 : (condIncSlot db sid).1 = none := by
      unfold condIncSlot
      rw [hf]
    rw [h] at h2
    exact Option.noConfusion h2
  | some s =>
    have hprop := List.find?_some hf
    simp only [decide_eq_true_eq] at hprop
    obtain ⟨l1, l2, hsplit, _⟩ := find?_split hf
    have hmap := map_update_split Slot.id
      (hsplit ▸ hpair) (rfl : s.id = s.id)
      (fun _ => { s with bookedCount := s.bookedCount + 1 })
    have hs' : s' = { s with bookedCount := s.bookedCount + 1 } := by
      have h2 : (condIncSlot db sid).1 = some { s with bookedCount := s.bookedCount + 1 } := by
        unfold condIncSlot
        rw [hf]
      rw [h] at h2
      exact Option.some.inj h2
    refine ⟨s, l1, l2, hsplit, hprop.1, hprop.2, hs', ?_, ?_, ?_⟩
    · intro x hx
      rw [← hprop.1]
      exact hmap.1 x hx
    · intro x hx
      rw [← hprop.1]
      exact hmap.2.1 x hx
    · unfold condIncSlot
      rw [hs']
      simp only [hf]
      rw [hsplit, hmap.2.2]

theorem decSlot_no_slot {db : DB} {sid : Nat}
    (h : ∀ s ∈ db.slots, s.id ≠ sid) :
    decSlot db sid = db := by
  unfold decSlot
  cases hf : db.slots.find? (fun s => decide (s.id = sid)) with
  | none => rfl
  | some s =>
    have hmem := List.mem_of_find?_eq_some hf
    have hid := List.find?_some hf
    simp only [decide_eq_true_eq] at hid
    exact absurd hid (h s hmem)

theorem decSlot_found {db : DB} {sid : Nat} {s : Slot} {l1 l2 : List Slot}
    (hpair : db.slots.Pairwise (fun a b => a.id ≠ b.id))
    (hsplit : db.slots = l1 ++ s :: l2) (hid : s.id = sid)
    (hl1 : ∀ x ∈ l1, x.id ≠ sid) :
    decSlot db sid =
      { db with slots := l1 ++ { s with bookedCount := s.bookedCount - 1 } :: l2 } := by
  have hf : db.slots.find? (fun t => decide (t.id = sid)) = some s := by
    rw [hsplit]
    exact find?_middle (fun x hx => by simp [hl1 x hx]) (by simp [hid])
  have hmap := map_update_split Slot.id
    (hsplit ▸ hpair) (rfl : s.id = s.id)
    (fun _ => { s with bookedCount := s.bookedCount - 1 })
  unfold decSlot
  simp only [hf]
  rw [hsplit, hmap.2.2]

/-! Effect lemmas for createBooking. -/

theorem createBookingTxn_fail {db : DB} {sid cid : Nat}
    (hpair : db.slots.Pairwise (fun a b => a.id ≠ b.id))
    (h : (createBookingTxn db sid cid).1 ≠ BookRes.created) :
    (createBookingTxn db sid cid).2 = db := by
  cases ho : (condIncSlot db sid).1 with
  | none =>
    obtain ⟨heq, -⟩ := condIncSlot_fst_none ho
    unfold createBookingTxn
    simp only [heq]
    split <;> rfl
  | some s' =>
    obtain ⟨s, l1, l2, hsplit, hid, hlt, hs', hkl1, hkl2, heq⟩ :=
      condIncSlot_fst_some hpair ho
    unfold createBookingTxn at h ⊢
    simp only [heq] at h ⊢
    by_cases hany : db.bookings.any
        (fun b => decide (b.slotId = sid ∧ b.candidateId = cid)) = true
    · rw [if_pos hany]
    · rw [if_neg hany] at h
      exact absurd rfl h

theorem createBookingTxn_created {db : DB} {sid cid : Nat}
    (hpair : db.slots.Pairwise (fun a b => a.id ≠ b.id))
    (h : (createBookingTxn db sid cid).1 = BookRes.created) :
    ∃ s l1 l2,
      db.slots = l1 ++ s :: l2 ∧ s.id = sid ∧ s.bookedCount < s.capacity ∧
      (∀ x ∈ l1, x.id ≠ sid) ∧ (∀ x ∈ l2, x.id ≠ sid) ∧
      (∀ b ∈ db.bookings, ¬(b.slotId = sid ∧ b.candidateId = cid)) ∧
      (createBookingTxn db sid cid).2 =
        { slots := l1 ++ { s with bookedCount := s.bookedCount + 1 } :: l2
          bookings := db.bookings ++ [⟨db.nextId, sid, cid, BStatus.BOOKED⟩]
          nextId := db.nextId + 1 } := by
  cases ho : (condIncSlot db sid).1 with
  | none =>
    exfalso
    obtain ⟨heq, -⟩ := condIncSlot_fst_none ho
    unfold createBookingTxn at h
    simp only [heq] at h
    split at h <;> exact BookRes.noConfusion h
  | some s' =>
    obtain ⟨s, l1, l2, hsplit, hid, hlt, hs', hkl1, hkl2, heq⟩ :=
      condIncSlot_fst_some hpair ho
    unfold createBookingTxn at h ⊢
    simp only [heq] at h ⊢
    by_cases hany : db.bookings.any
        (fun b => decide (b.slotId = sid ∧ b.candidateId = cid)) = true
    · rw [if_pos hany] at h
      exact absurd h (by intro hc; exact BookRes.noConfusion hc)
    · rw [if_neg hany]
      have hnone : ∀ b ∈ db.bookings, ¬(b.slotId = sid ∧ b.candidateId = cid) := by
        intro b hb hcontra
        exact hany (List.any_eq_true.mpr ⟨b, hb, by simpa using hcontra⟩)
      exact ⟨s, l1, l2, hsplit, hid, hlt, hkl1, hkl2, hnone, by rw [hs']⟩

theorem createBooking_created_eq_txn {db : DB} {raw : Option Nat} {cid : Nat}
    (h : (createBooking db raw cid).1 = BookRes.created) :
    ∃ sid, raw = some sid ∧
      createBooking db raw cid = createBookingTxn db sid cid ∧
      (createBookingTxn db sid cid).1 = BookRes.created := by
  unfold createBooking at h ⊢
  cases raw with
  | none => exact absurd h (by intro hc; exact BookRes.noConfusion hc)
  | some sid =>
    refine ⟨sid, rfl, ?_⟩
    cases hfind : db.bookings.find?
        (fun b => decide (b.slotId = sid ∧ b.candidateId = cid)) with
    | none =>
      simp only [hfind] at h ⊢
      exact ⟨trivial, h⟩
    | some b =>
      simp only [hfind] at h ⊢
      by_cases hst : b.status = BStatus.BOOKED
      · rw [if_pos hst] at h
        exact absurd h (by intro hc; exact BookRes.noConfusion hc)
      · rw [if_neg hst] at h ⊢
        exact ⟨rfl, h⟩

theorem createBooking_fail {db : DB} {raw : Option Nat} {cid : Nat}
    (hpair : db.slots.Pairwise (fun a b => a.id ≠ b.id))
    (h : (createBooking db raw cid).1 ≠ BookRes.created) :
    (createBooking db raw cid).2 = db := by
  unfold createBooking at h ⊢
  cases raw with
  | none => rfl
  | some sid =>
    cases hfind : db.bookings.find?
        (fun b => decide (b.slotId = sid ∧ b.candidateId = cid)) with
    | none =>
      simp only [hfind] at h ⊢
      exact createBookingTxn_fail hpair h
    | some b =>
      simp only [hfind] at h ⊢
      by_cases hst : b.status = BStatus.BOOKED
      · rw [if_pos hst]
      · rw [if_neg hst] at h ⊢
        exact createBookingTxn_fail hpair h

/-! Effect lemmas for cancelBooking. -/

theorem pairwise_replace_middle {α β : Type} (key : α → β) {l1 l2 : List α} {b c : α}
    (hkey : key c = key b)
    (h : (l1 ++ b :: l2).Pairwise (fun x y => key x ≠ key y)) :
    (l1 ++ c :: l2).Pairwise (fun x y => key x ≠ key y) := by
  rw [List.pairwise_append] at h ⊢
  obtain ⟨h1, h2, h12⟩ := h
  rw [List.pairwise_cons] at h2 ⊢
  refine ⟨h1, ⟨fun y hy => ?_, h2.2⟩, fun x hx y hy => ?_⟩
  · rw [hkey]
    exact h2.1 y hy
  · rcases List.mem_cons.mp hy with rfl | hy2
    · rw [hkey]
      exact h12 x hx b (List.mem_cons_self b l2)
    · exact h12 x hx y (List.mem_cons_of_mem b hy2)

theorem cancelBooking_fail {db : DB} {raw uid : Option Nat}
    (h : (cancelBooking db raw uid).1 ≠ CancelRes.cancelled) :
    (cancelBooking db raw uid).2 = db := by
  unfold cancelBooking at h ⊢
  cases raw with
  | none => rfl
  | some bid =>
    cases hfind : db.bookings.find? (fun b => decide (b.id = bid)) with
    | none => simp only [hfind]
    | some booking =>
      simp only [hfind] at h ⊢
      by_cases h1 : strictNe booking.candidateId uid = true
      · rw [if_pos h1]
      · rw [if_neg h1] at h ⊢
        by_cases h2 : booking.status = BStatus.CANCELLED
        · rw [if_pos h2]
        · rw [if_neg h2] at h
          exact absurd rfl h

theorem cancelBooking_success {db : DB} {raw uid : Option Nat}
    (hbook : db.bookings.Pairwise (fun a b => a.id ≠ b.id))
    (h : (cancelBooking db raw uid).1 = CancelRes.cancelled) :
    ∃ bid b m1 m2,
      raw = some bid ∧ db.bookings = m1 ++ b :: m2 ∧ b.id = bid ∧
      b.status = BStatus.BOOKED ∧ strictNe b.candidateId uid = false ∧
      (∀ x ∈ m1, x.id ≠ bid) ∧ (∀ x ∈ m2, x.id ≠ bid) ∧
      (cancelBooking db raw uid).2 = decSlot
        { db with bookings := m1 ++ { b with status := BStatus.CANCELLED } :: m2 }
        b.slotId := by
  unfold cancelBooking at h ⊢
  cases raw with
  | none => exact absurd h (by intro hc; exact CancelRes.noConfusion hc)
  | some bid =>
    cases hfind : db.bookings.find? (fun b => decide (b.id = bid)) with
    | none =>
      simp only [hfind] at h
      exact absurd h (by intro hc; exact CancelRes.noConfusion hc)
    | some booking =>
      simp only [hfind] at h ⊢
      by_cases h1 : strictNe booking.candidateId uid = true
      · rw [if_pos h1] at h
        exact absurd h (by intro hc; exact CancelRes.noConfusion hc)
      · rw [if_neg h1] at h ⊢
        by_cases h2 : booking.status = BStatus.CANCELLED
        · rw [if_pos h2] at h
          exact absurd h (by intro hc; exact CancelRes.noConfusion hc)
        · rw [if_neg h2] at h ⊢
          have hid := List.find?_some hfind
          simp only [decide_eq_true_eq] at hid
          obtain ⟨m1, m2, hsplit, -⟩ := find?_split hfind
          have hmap := map_update_split Booking.id
            (hsplit ▸ hbook) hid
            (fun x => { x with status := BStatus.CANCELLED })
          have hstatus : booking.status = BStatus.BOOKED := by
            cases hb : booking.status with
            | BOOKED => rfl
            | CANCELLED => exact absurd hb h2
          refine ⟨bid, booking, m1, m2, rfl, hsplit, hid, hstatus,
            Bool.eq_false_iff.mpr h1, hmap.1, hmap.2.1, ?_⟩
          rw [hsplit, hmap.2.2]

/-! Preservation of the invariants by createBooking. -/

theorem countInv_createBooking {db : DB} {raw : Option Nat} {cid : Nat}
    (hwf : WF db) (hinv : countInv db) :
    countInv (createBooking db raw cid).2 := by
  by_cases h : (createBooking db raw cid).1 = BookRes.created
  · obtain ⟨sid, hraw, heq, htxn⟩ := createBooking_created_eq_txn h
    obtain ⟨s, l1, l2, hsplit, hid, hlt, hkl1, hkl2, hnopair, hsnd⟩ :=
      createBookingTxn_created hwf.1 htxn
    rw [heq, hsnd]
    intro t ht
    have hsmem : s ∈ db.slots := by
      rw [hsplit]
      exact List.mem_append.mpr (Or.inr (List.mem_cons_self s l2))
    have hcnt : ∀ tid : Nat, activeCount
        ({ slots := l1 ++ { s with bookedCount := s.bookedCount + 1 } :: l2
           bookings := db.bookings ++ [⟨db.nextId, sid, cid, BStatus.BOOKED⟩]
           nextId := db.nextId + 1 } : DB) tid =
        activeCount db tid + (if sid = tid then 1 else 0) := by
      intro tid
      simp [activeCount, List.countP_append, List.countP_cons]
    rcases List.mem_append.mp ht with ht1 | ht2
    · have htid : t.id ≠ sid := hkl1 t ht1
      have htmem : t ∈ db.slots := by
        rw [hsplit]
        exact List.mem_append.mpr (Or.inl ht1)
      rw [hcnt, if_neg (fun hh => htid hh.symm)]
      simpa using hinv t htmem
    · rcases List.mem_cons.mp ht2 with rfl | ht3
      · have hsv := hinv s hsmem
        rw [hcnt]
        simp only
        rw [if_pos hid.symm]
        push_cast
        omega
      · have htid : t.id ≠ sid := hkl2 t ht3
        have htmem : t ∈ db.slots := by
          rw [hsplit]
          exact List.mem_append.mpr (Or.inr (List.mem_cons_of_mem s ht3))
        rw [hcnt, if_neg (fun hh => htid hh.symm)]
        simpa using hinv t htmem
  · rw [createBooking_fail hwf.1 h]
    exact hinv

theorem capInv_createBooking {db : DB} {raw : Option Nat} {cid : Nat}
    (hwf : WF db) (hcap : capInv db) :
    capInv (createBooking db raw cid).2 := by
  by_cases h : (createBooking db raw cid).1 = BookRes.created
  · obtain ⟨sid, hraw, heq, htxn⟩ := createBooking_created_eq_txn h
    obtain ⟨s, l1, l2, hsplit, hid, hlt, hkl1, hkl2, hnopair, hsnd⟩ :=
      createBookingTxn_created hwf.1 htxn
    rw [heq, hsnd]
    intro t ht
    have hsmem : s ∈ db.slots := by
      rw [hsplit]
      exact List.mem_append.mpr (Or.inr (List.mem_cons_self s l2))
    rcases List.mem_append.mp ht with ht1 | ht2
    · exact hcap t (by rw [hsplit]; exact List.mem_append.mpr (Or.inl ht1))
    · rcases List.mem_cons.mp ht2 with rfl | ht3
      · have hs := hcap s hsmem
        constructor
        · simp only
          omega
        · simp only
          omega
      · exact hcap t (by
          rw [hsplit]
          exact List.mem_append.mpr (Or.inr (List.mem_cons_of_mem s ht3)))
  · rw [createBooking_fail hwf.1 h]
    exact hcap

theorem WF_createBooking {db : DB} {raw : Option Nat} {cid : Nat}
    (hwf : WF db) :
    WF (createBooking db raw cid).2 := by
  by_cases h : (createBooking db raw cid).1 = BookRes.created
  · obtain ⟨sid, hraw, heq, htxn⟩ := createBooking_created_eq_txn h
    obtain ⟨s, l1, l2, hsplit, hid, hlt, hkl1, hkl2, hnopair, hsnd⟩ :=
      createBookingTxn_created hwf.1 htxn
    obtain ⟨hsl, hbk, hpr, hsb, hbb, hslb⟩ := hwf
    rw [heq, hsnd]
    have hsmem : s ∈ db.slots := by
      rw [hsplit]
      exact List.mem_append.mpr (Or.inr (List.mem_cons_self s l2))
    have hmemold : ∀ x ∈ l1 ++ { s with bookedCount := s.bookedCount + 1 } :: l2,
        x ∈ db.slots ∨ x = { s with bookedCount := s.bookedCount + 1 } := by
      intro x hx
      rcases List.mem_append.mp hx with hx1 | hx2
      · exact Or.inl (by rw [hsplit]; exact List.mem_append.mpr (Or.inl hx1))
      · rcases List.mem_cons.mp hx2 with rfl | hx3
        · exact Or.inr rfl
        · exact Or.inl (by
            rw [hsplit]
            exact List.mem_append.mpr (Or.inr (List.mem_cons_of_mem s hx3)))
    refine ⟨?_, ?_, ?_, ?_, ?_, ?_⟩
    · have hps : (l1 ++ s :: l2).Pairwise (fun a b => a.id ≠ b.id) := hsplit ▸ hsl
      exact pairwise_replace_middle Slot.id
        (show ({ s with bookedCount := s.bookedCount + 1 } : Slot).id = s.id from rfl) hps
    · rw [List.pairwise_append]
      refine ⟨hbk, List.pairwise_singleton _ _, ?_⟩
      intro a ha b hb
      rw [List.mem_singleton.mp hb]
      exact fun hc => absurd hc (Nat.ne_of_lt (hbb a ha))
    · rw [List.pairwise_append]
      refine ⟨hpr, List.pairwise_singleton _ _, ?_⟩
      intro a ha b hb
      rw [List.mem_singleton.mp hb]
      have := hnopair a ha
      by_cases hsl2 : a.slotId = sid
      · exact Or.inr fun hc => this ⟨hsl2, hc⟩
      · exact Or.inl hsl2
    · intro x hx
      rcases hmemold x hx with hx1 | rfl
      · exact Nat.lt_succ_of_lt (hsb x hx1)
      · exact Nat.lt_succ_of_lt (hsb s hsmem)
    · intro b hb
      rcases List.mem_append.mp hb with hb1 | hb2
      · exact Nat.lt_succ_of_lt (hbb b hb1)
      · rw [List.mem_singleton.mp hb2]
        exact Nat.lt_succ_self _
    · intro b hb
      rcases List.mem_append.mp hb with hb1 | hb2
      · exact Nat.lt_succ_of_lt (hslb b hb1)
      · rw [List.mem_singleton.mp hb2]
        simp only
        rw [← hid]
        exact Nat.lt_succ_of_lt (hsb s hsmem)
  · rw [createBooking_fail hwf.1 h]
    exact hwf

/-! Preservation of the invariants by cancelBooking. -/

theorem countP_flip_ne (m1 m2 : List Booking) (b : Booking) (tid : Nat)
    (hne : b.slotId ≠ tid) :
    List.countP (fun x => decide (x.slotId = tid ∧ x.status = BStatus.BOOKED))
        (m1 ++ { b with status := BStatus.CANCELLED } :: m2) =
    List.countP (fun x => decide (x.slotId = tid ∧ x.status = BStatus.BOOKED))
        (m1 ++ b :: m2) := by
  rw [countP_append_cons, countP_append_cons]
  simp [hne]

theorem countP_flip_self (m1 m2 : List Booking) (b : Booking)
    (hst : b.status = BStatus.BOOKED) :
    List.countP (fun x => decide (x.slotId = b.slotId ∧ x.status = BStatus.BOOKED))
        (m1 ++ { b with status := BStatus.CANCELLED } :: m2) + 1 =
    List.countP (fun x => decide (x.slotId = b.slotId ∧ x.status = BStatus.BOOKED))
        (m1 ++ b :: m2) := by
  rw [countP_append_cons, countP_append_cons]
  simp [hst]

theorem cancelBooking_success_db {db : DB} {raw uid : Option Nat}
    (hwf : WF db)
    (h : (cancelBooking db raw uid).1 = CancelRes.cancelled) :
    ∃ b m1 m2,
      db.bookings = m1 ++ b :: m2 ∧ b.status = BStatus.BOOKED ∧
      (∀ x ∈ m1, x.id ≠ b.id) ∧ (∀ x ∈ m2, x.id ≠ b.id) ∧
      ((∀ s ∈ db.slots, s.id ≠ b.slotId) ∧
         (cancelBooking db raw uid).2 =
           { db with bookings := m1 ++ { b with status := BStatus.CANCELLED } :: m2 } ∨
       ∃ s l1 l2, db.slots = l1 ++ s :: l2 ∧ s.id = b.slotId ∧
         (∀ x ∈ l1, x.id ≠ b.slotId) ∧ (∀ x ∈ l2, x.id ≠ b.slotId) ∧
         (cancelBooking db raw uid).2 =
           { db with
             slots := l1 ++ { s with bookedCount := s.bookedCount - 1 } :: l2
             bookings := m1 ++ { b with status := BStatus.CANCELLED } :: m2 }) := by
  obtain ⟨bid, b, m1, m2, hraw, hsplit, hbid, hstatus, hown, hm1, hm2, hsnd⟩ :=
    cancelBooking_success hwf.2.1 h
  have hm1b : ∀ x ∈ m1, x.id ≠ b.id := by
    intro x hx
    rw [hbid]
    exact hm1 x hx
  have hm2b : ∀ x ∈ m2, x.id ≠ b.id := by
    intro x hx
    rw [hbid]
    exact hm2 x hx
  refine ⟨b, m1, m2, hsplit, hstatus, hm1b, hm2b, ?_⟩
  cases hfs : db.slots.find? (fun s => decide (s.id = b.slotId)) with
  | none =>
    left
    have hno : ∀ s ∈ db.slots, s.id ≠ b.slotId := by
      intro s hs
      have := List.find?_eq_none.mp hfs s hs
      simpa using this
    refine ⟨hno, ?_⟩
    rw [hsnd]
    exact decSlot_no_slot hno
  | some s =>
    right
    have hsid := List.find?_some hfs
    simp only [decide_eq_true_eq] at hsid
    obtain ⟨l1, l2, hssplit, hfl1⟩ := find?_split hfs
    have hl1 : ∀ x ∈ l1, x.id ≠ b.slotId := by
      intro x hx
      have := hfl1 x hx
      simpa using this
    have hl2 : ∀ x ∈ l2, x.id ≠ b.slotId := by
      have hps : (l1 ++ s :: l2).Pairwise (fun a c => a.id ≠ c.id) := hssplit ▸ hwf.1
      rw [List.pairwise_append] at hps
      intro x hx he
      exact (List.pairwise_cons.mp hps.2.1).1 x hx (hsid.trans he.symm)
    refine ⟨s, l1, l2, hssplit, hsid, hl1, hl2, ?_⟩
    rw [hsnd]
    have hpair2 : ({ db with
        bookings := m1 ++ { b with status := BStatus.CANCELLED } :: m2 } : DB).slots.Pairwise
        (fun a c => a.id ≠ c.id) := hwf.1
    exact decSlot_found hpair2 hssplit hsid hl1

theorem countInv_cancelBooking {db : DB} {raw uid : Option Nat}
    (hwf : WF db) (hinv : countInv db) :
    countInv (cancelBooking db raw uid).2 := by
  by_cases h : (cancelBooking db raw uid).1 = CancelRes.cancelled
  · obtain ⟨b, m1, m2, hsplit, hstatus, hm1, hm2, hcase⟩ := cancelBooking_success_db hwf h
    have hmemb : ∀ t ∈ db.slots, t.id ≠ b.slotId →
        (activeCount { db with bookings := m1 ++ { b with status := BStatus.CANCELLED } :: m2 }
          t.id = activeCount db t.id) := by
      intro t ht hne
      unfold activeCount
      simp only
      rw [hsplit]
      exact countP_flip_ne m1 m2 b t.id (fun hc => hne hc.symm)
    rcases hcase with ⟨hno, hsnd⟩ | ⟨s, l1, l2, hssplit, hsid, hl1, hl2, hsnd⟩
    · rw [hsnd]
      intro t ht
      rw [show (activeCount { db with
            bookings := m1 ++ { b with status := BStatus.CANCELLED } :: m2 } t.id) =
          activeCount db t.id from hmemb t ht (hno t ht)]
      exact hinv t ht
    · rw [hsnd]
      intro t ht
      have hsmem : s ∈ db.slots := by
        rw [hssplit]
        exact List.mem_append.mpr (Or.inr (List.mem_cons_self s l2))
      have hactst : activeCount db b.slotId =
          activeCount { db with
            bookings := m1 ++ { b with status := BStatus.CANCELLED } :: m2 } b.slotId + 1 := by
        unfold activeCount
        simp only
        rw [hsplit]
        exact (countP_flip_self m1 m2 b hstatus).symm
      rcases List.mem_append.mp ht with ht1 | ht2
      · have htmem : t ∈ db.slots := by
          rw [hssplit]
          exact List.mem_append.mpr (Or.inl ht1)
        rw [show (activeCount { db with
              slots := l1 ++ { s with bookedCount := s.bookedCount - 1 } :: l2
              bookings := m1 ++ { b with status := BStatus.CANCELLED } :: m2 } t.id) =
            activeCount { db with
              bookings := m1 ++ { b with status := BStatus.CANCELLED } :: m2 } t.id from rfl]
        rw [hmemb t htmem (hl1 t ht1)]
        exact hinv t htmem
      · rcases List.mem_cons.mp ht2 with rfl | ht3
        · have hs := hinv s hsmem
          have hact2 : activeCount { db with
              slots := l1 ++ { s with bookedCount := s.bookedCount - 1 } :: l2
              bookings := m1 ++ { b with status := BStatus.CANCELLED } :: m2 }
              ({ s with bookedCount := s.bookedCount - 1 } : Slot).id =
              activeCount { db with
                bookings := m1 ++ { b with status := BStatus.CANCELLED } :: m2 } s.id := rfl
          rw [hact2]
          simp only
          rw [hsid] at hs ⊢
          omega
        · have htmem : t ∈ db.slots := by
            rw [hssplit]
            exact List.mem_append.mpr (Or.inr (List.mem_cons_of_mem s ht3))
          rw [show (activeCount { db with
                slots := l1 ++ { s with bookedCount := s.bookedCount - 1 } :: l2
                bookings := m1 ++ { b with status := BStatus.CANCELLED } :: m2 } t.id) =
              activeCount { db with
                bookings := m1 ++ { b with status := BStatus.CANCELLED } :: m2 } t.id from rfl]
          rw [hmemb t htmem (hl2 t ht3)]
          exact hinv t htmem
  · rw [cancelBooking_fail h]
    exact hinv

theorem mem_replace_middle {α : Type} {l1 l2 : List α} {b c x : α}
    (hx : x ∈ l1 ++ c :: l2) : x = c ∨ x ∈ l1 ++ b :: l2 := by
  rcases List.mem_append.mp hx with h1 | h2
  · exact Or.inr (List.mem_append.mpr (Or.inl h1))
  · rcases List.mem_cons.mp h2 with rfl | h3
    · exact Or.inl rfl
    · exact Or.inr (List.mem_append.mpr (Or.inr (List.mem_cons_of_mem b h3)))

theorem capInv_cancelBooking {db : DB} {raw uid : Option Nat}
    (hwf : WF db) (hinv : countInv db) (hcap : capInv db) :
    capInv (cancelBooking db raw uid).2 := by
  by_cases h : (cancelBooking db raw uid).1 = CancelRes.cancelled
  · obtain ⟨b, m1, m2, hsplit, hstatus, hm1, hm2, hcase⟩ := cancelBooking_success_db hwf h
    rcases hcase with ⟨hno, hsnd⟩ | ⟨s, l1, l2, hssplit, hsid, hl1, hl2, hsnd⟩
    · rw [hsnd]
      intro t ht
      exact hcap t ht
    · rw [hsnd]
      intro t ht
      have hsmem : s ∈ db.slots := by
        rw [hssplit]
        exact List.mem_append.mpr (Or.inr (List.mem_cons_self s l2))
      rcases List.mem_append.mp ht with ht1 | ht2
      · exact hcap t (by rw [hssplit]; exact List.mem_append.mpr (Or.inl ht1))
      · rcases List.mem_cons.mp ht2 with rfl | ht3
        · have hs := hinv s hsmem
          have hc := hcap s hsmem
          have hpos : 1 ≤ activeCount db b.slotId := by
            have := countP_flip_self m1 m2 b hstatus
            unfold activeCount
            rw [hsplit, ← this]
            omega
          rw [hsid] at hs
          constructor
          · simp only
            omega
          · simp only
            omega
        · exact hcap t (by
            rw [hssplit]
            exact List.mem_append.mpr (Or.inr (List.mem_cons_of_mem s ht3)))
  · rw [cancelBooking_fail h]
    exact hcap

theorem WF_cancelBooking {db : DB} {raw uid : Option Nat}
    (hwf : WF db) :
    WF (cancelBooking db raw uid).2 := by
  by_cases h : (cancelBooking db raw uid).1 = CancelRes.cancelled
  · obtain ⟨b, m1, m2, hsplit, hstatus, hm1, hm2, hcase⟩ := cancelBooking_success_db hwf h
    obtain ⟨hsl, hbk, hpr, hsb, hbb, hslb⟩ := hwf
    have hbmem : b ∈ db.bookings := by
      rw [hsplit]
      exact List.mem_append.mpr (Or.inr (List.mem_cons_self b m2))
    have hbk2 : (m1 ++ { b with status := BStatus.CANCELLED } :: m2).Pairwise
        (fun a c => a.id ≠ c.id) := by
      have hps : (m1 ++ b :: m2).Pairwise (fun a c => a.id ≠ c.id) := hsplit ▸ hbk
      exact pairwise_replace_middle Booking.id
        (show ({ b with status := BStatus.CANCELLED } : Booking).id = b.id from rfl) hps
    have hpr2 : (m1 ++ { b with status := BStatus.CANCELLED } :: m2).Pairwise
        (fun a c => a.slotId ≠ c.slotId ∨ a.candidateId ≠ c.candidateId) := by
      have hps : (m1 ++ b :: m2).Pairwise
          (fun a c => a.slotId ≠ c.slotId ∨ a.candidateId ≠ c.candidateId) := hsplit ▸ hpr
      have hkey : (m1 ++ b :: m2).Pairwise
          (fun a c => (fun x : Booking => (x.slotId, x.candidateId)) a ≠
            (fun x : Booking => (x.slotId, x.candidateId)) c) := by
        refine hps.imp ?_
        intro a c hac heq
        simp only [Prod.mk.injEq] at heq
        rcases hac with h1 | h1 <;> exact h1 (by simp [heq.1, heq.2])
      have hrep := pairwise_replace_middle
        (fun x : Booking => (x.slotId, x.candidateId))
        (show (({ b with status := BStatus.CANCELLED } : Booking).slotId,
            ({ b with status := BStatus.CANCELLED } : Booking).candidateId) =
            (b.slotId, b.candidateId) from rfl) hkey
      refine hrep.imp ?_
      intro a c hac
      by_cases h1 : a.slotId = c.slotId
      · by_cases h2 : a.candidateId = c.candidateId
        · exact absurd (by simp [h1, h2]) hac
        · exact Or.inr h2
      · exact Or.inl h1
    have hbb2 : ∀ x ∈ m1 ++ { b with status := BStatus.CANCELLED } :: m2,
        x.id < db.nextId := by
      intro x hx
      rcases mem_replace_middle (b := b) hx with rfl | hx2
      · exact hbb b hbmem
      · exact hbb x (hsplit ▸ hx2)
    have hslb2 : ∀ x ∈ m1 ++ { b with status := BStatus.CANCELLED } :: m2,
        x.slotId < db.nextId := by
      intro x hx
      rcases mem_replace_middle (b := b) hx with rfl | hx2
      · exact hslb b hbmem
      · exact hslb x (hsplit ▸ hx2)
    rcases hcase with ⟨hno, hsnd⟩ | ⟨s, l1, l2, hssplit, hsid, hl1, hl2, hsnd⟩
    · rw [hsnd]
      exact ⟨hsl, hbk2, hpr2, hsb, hbb2, hslb2⟩
    · rw [hsnd]
      have hsmem : s ∈ db.slots := by
        rw [hssplit]
        exact List.mem_append.mpr (Or.inr (List.mem_cons_self s l2))
      have hsl2 : (l1 ++ { s with bookedCount := s.bookedCount - 1 } :: l2).Pairwise
          (fun a c => a.id ≠ c.id) := by
        have hps : (l1 ++ s :: l2).Pairwise (fun a c => a.id ≠ c.id) := hssplit ▸ hsl
        exact pairwise_replace_middle Slot.id
          (show ({ s with bookedCount := s.bookedCount - 1 } : Slot).id = s.id from rfl) hps
      refine ⟨hsl2, hbk2, hpr2, ?_, hbb2, hslb2⟩
      intro x hx
      rcases mem_replace_middle (b := s) hx with rfl | hx2
      · exact hsb s hsmem
      · exact hsb x (hssplit ▸ hx2)
  · rw [cancelBooking_fail h]
    exact hwf

/-! Preservation of the invariants by the slot lifecycle operations. -/

theorem createSlot_cases (db : DB) (adminId : Nat) (st en cap : Int) :
    (createSlot db adminId st en cap).2 = db ∨
    (st < en ∧ 1 ≤ cap ∧ (createSlot db adminId st en cap).2 =
      { db with
        slots := db.slots ++ [⟨db.nextId, st, en, cap, 0, adminId⟩]
        nextId := db.nextId + 1 }) := by
  unfold createSlot
  by_cases h1 : st ≥ en
  · rw [if_pos h1]
    exact Or.inl rfl
  · rw [if_neg h1]
    by_cases h2 : cap < 1
    · rw [if_pos h2]
      exact Or.inl rfl
    · rw [if_neg h2]
      by_cases h3 : checkOverlap db adminId st en none = true
      · rw [if_pos h3]
        exact Or.inl rfl
      · rw [if_neg h3]
        exact Or.inr ⟨by omega, by omega, rfl⟩

theorem inv_createSlot {db : DB} {adminId : Nat} {st en cap : Int}
    (hwf : WF db) (hinv : countInv db) (hcap : capInv db) :
    WF (createSlot db adminId st en cap).2 ∧
    countInv (createSlot db adminId st en cap).2 ∧
    capInv (createSlot db adminId st en cap).2 := by
  rcases createSlot_cases db adminId st en cap with heq | ⟨h1, h2, heq⟩
  · rw [heq]
    exact ⟨hwf, hinv, hcap⟩
  · rw [heq]
    obtain ⟨hsl, hbk, hpr, hsb, hbb, hslb⟩ := hwf
    have hnew0 : activeCount db db.nextId = 0 := by
      unfold activeCount
      rw [List.countP_eq_zero]
      intro a ha
      simp only [decide_eq_true_eq, not_and]
      intro hc
      exact absurd hc (Nat.ne_of_lt (hslb a ha))
    refine ⟨⟨?_, hbk, hpr, ?_, ?_, ?_⟩, ?_, ?_⟩
    · rw [List.pairwise_append]
      refine ⟨hsl, List.pairwise_singleton _ _, ?_⟩
      intro a ha c hc
      rw [List.mem_singleton.mp hc]
      exact Nat.ne_of_lt (hsb a ha)
    · intro x hx
      rcases List.mem_append.mp hx with hx1 | hx2
      · exact Nat.lt_succ_of_lt (hsb x hx1)
      · rw [List.mem_singleton.mp hx2]
        exact Nat.lt_succ_self _
    · intro x hx
      exact Nat.lt_succ_of_lt (hbb x hx)
    · intro x hx
      exact Nat.lt_succ_of_lt (hslb x hx)
    · intro t ht
      rcases List.mem_append.mp ht with ht1 | ht2
      · exact hinv t ht1
      · rw [List.mem_singleton.mp ht2]
        simp only
        rw [show activeCount
            { db with
              slots := db.slots ++ [⟨db.nextId, st, en, cap, 0, adminId⟩]
              nextId := db.nextId + 1 } db.nextId = activeCount db db.nextId from rfl, hnew0]
        rfl
    · intro t ht
      rcases List.mem_append.mp ht with ht1 | ht2
      · exact hcap t ht1
      · rw [List.mem_singleton.mp ht2]
        exact ⟨le_refl 0, by simp only; omega⟩

theorem saveSlot_resolve {db : DB} {s s2 : Slot} {l1 l2 : List Slot}
    (hpair : db.slots.Pairwise (fun a c => a.id ≠ c.id))
    (hsplit : db.slots = l1 ++ s :: l2) (hid : s2.id = s.id) :
    saveSlot db s2 = (if s2.capacity < 1 then (.validationFailed, db)
      else (.updated s2, { db with slots := l1 ++ s2 :: l2 })) := by
  unfold saveSlot
  by_cases hc : s2.capacity < 1
  · rw [if_pos hc, if_pos hc]
  · rw [if_neg hc, if_neg hc]
    have hps : (l1 ++ s :: l2).Pairwise (fun a c => a.id ≠ c.id) := hsplit ▸ hpair
    have hmap := map_update_split Slot.id hps hid.symm (fun _ => s2)
    rw [hsplit, hmap.2.2]

theorem updateSlotCap_cases {db : DB} (slot : Slot) (cap : Option Int)
    {l1 l2 : List Slot} {s : Slot}
    (hpair : db.slots.Pairwise (fun a c => a.id ≠ c.id))
    (hsplit : db.slots = l1 ++ s :: l2) (hid : slot.id = s.id) :
    (updateSlotCap db slot cap).2 = db ∨
    ∃ s2 : Slot, s2.id = slot.id ∧ s2.bookedCount = slot.bookedCount ∧
      s2.createdBy = slot.createdBy ∧
      1 ≤ s2.capacity ∧ (s2.capacity = slot.capacity ∨ slot.bookedCount ≤ s2.capacity) ∧
      (updateSlotCap db slot cap).2 = { db with slots := l1 ++ s2 :: l2 } := by
  cases cap with
  | none =>
    rw [show updateSlotCap db slot none = saveSlot db slot from rfl]
    rw [saveSlot_resolve hpair hsplit hid]
    by_cases hc : slot.capacity < 1
    · rw [if_pos hc]
      exact Or.inl rfl
    · rw [if_neg hc]
      exact Or.inr ⟨slot, rfl, rfl, rfl, by omega, Or.inl rfl, rfl⟩
  | some c =>
    rw [show updateSlotCap db slot (some c) =
      (if c < slot.bookedCount then (SlotUpdateRes.capacityConflict, db)
       else saveSlot db { slot with capacity := c }) from rfl]
    by_cases hlt : c < slot.bookedCount
    · rw [if_pos hlt]
      exact Or.inl rfl
    · rw [if_neg hlt]
      rw [saveSlot_resolve hpair hsplit
        (show ({ slot with capacity := c } : Slot).id = s.id from hid)]
      by_cases hc : ({ slot with capacity := c } : Slot).capacity < 1
      · rw [if_pos hc]
        exact Or.inl rfl
      · rw [if_neg hc]
        refine Or.inr ⟨{ slot with capacity := c }, rfl, rfl, rfl, ?_, ?_, rfl⟩
        · simp only at hc ⊢
          omega
        · simp only
          omega

theorem updateSlot_cases {db : DB} (adminId sid : Nat) (st en cap : Option Int)
    (hpair : db.slots.Pairwise (fun a c => a.id ≠ c.id)) :
    (updateSlot db adminId sid st en cap).2 = db ∨
    ∃ s l1 l2 s2,
      db.slots = l1 ++ s :: l2 ∧ s.id = sid ∧
      s2.id = s.id ∧ s2.bookedCount = s.bookedCount ∧
      1 ≤ s2.capacity ∧ (s2.capacity = s.capacity ∨ s.bookedCount ≤ s2.capacity) ∧
      (updateSlot db adminId sid st en cap).2 = { db with slots := l1 ++ s2 :: l2 } := by
  unfold updateSlot
  cases hf : db.slots.find? (fun s => decide (s.id = sid)) with
  | none =>
    simp only [hf]
    exact Or.inl trivial
  | some slot =>
    simp only [hf]
    have hsid := List.find?_some hf
    simp only [decide_eq_true_eq] at hsid
    obtain ⟨l1, l2, hsplit, -⟩ := find?_split hf
    by_cases hown : slot.createdBy ≠ adminId
    · rw [if_pos hown]
      exact Or.inl rfl
    · rw [if_neg hown]
      by_cases htime : (st.isSome || en.isSome) = true
      · rw [if_pos htime]
        by_cases hrange : st.getD slot.startTime ≥ en.getD slot.endTime
        · rw [if_pos hrange]
          exact Or.inl rfl
        · rw [if_neg hrange]
          by_cases hov : checkOverlap db adminId (st.getD slot.startTime)
              (en.getD slot.endTime) (some sid) = true
          · rw [if_pos hov]
            exact Or.inl rfl
          · rw [if_neg hov]
            rcases updateSlotCap_cases
                { slot with
                  startTime := st.getD slot.startTime
                  endTime := en.getD slot.endTime }
                cap hpair hsplit rfl
              with hl | ⟨s2, hi, hb, hc, h1, h2, heq⟩
            · exact Or.inl hl
            · exact Or.inr ⟨slot, l1, l2, s2, hsplit, hsid, hi, hb, h1,
                (by simpa using h2), heq⟩
      · rw [if_neg htime]
        rcases updateSlotCap_cases slot cap hpair hsplit rfl
          with hl | ⟨s2, hi, hb, hc, h1, h2, heq⟩
        · exact Or.inl hl
        · exact Or.inr ⟨slot, l1, l2, s2, hsplit, hsid, hi, hb, h1, h2, heq⟩

theorem inv_updateSlot {db : DB} {adminId sid : Nat} {st en cap : Option Int}
    (hwf : WF db) (hinv : countInv db) (hcap : capInv db) :
    WF (updateSlot db adminId sid st en cap).2 ∧
    countInv (updateSlot db adminId sid st en cap).2 ∧
    capInv (updateSlot db adminId sid st en cap).2 := by
  rcases updateSlot_cases adminId sid st en cap hwf.1
    with heq | ⟨s, l1, l2, s2, hsplit, hsid, hi, hb, h1, h2, heq⟩
  · rw [heq]
    exact ⟨hwf, hinv, hcap⟩
  · rw [heq]
    obtain ⟨hsl, hbk, hpr, hsb, hbb, hslb⟩ := hwf
    have hsmem : s ∈ db.slots := by
      rw [hsplit]
      exact List.mem_append.mpr (Or.inr (List.mem_cons_self s l2))
    have hps : (l1 ++ s :: l2).Pairwise (fun a c => a.id ≠ c.id) := hsplit ▸ hsl
    refine ⟨⟨pairwise_replace_middle Slot.id hi hps, hbk, hpr, ?_, hbb, hslb⟩,
      ?_, ?_⟩
    · intro x hx
      rcases mem_replace_middle (b := s) hx with rfl | hx2
      · rw [hi, hsid]
        rw [← hsid]
        exact hsb s hsmem
      · exact hsb x (hsplit ▸ hx2)
    · intro t ht
      rcases mem_replace_middle (b := s) ht with rfl | ht2
      · rw [show activeCount { db with slots := l1 ++ t :: l2 } t.id =
            activeCount db t.id from rfl]
        rw [hb, hi]
        exact hinv s hsmem
      · rw [show activeCount { db with slots := l1 ++ s2 :: l2 } t.id =
            activeCount db t.id from rfl]
        exact hinv t (hsplit ▸ ht2)
    · intro t ht
      rcases mem_replace_middle (b := s) ht with rfl | ht2
      · obtain ⟨hc1, hc2⟩ := hcap s hsmem
        constructor
        · rw [hb]
          exact hc1
        · rcases h2 with h2 | h2
          · rw [hb, h2]
            exact hc2
          · rw [hb]
            exact h2
      · exact hcap t (hsplit ▸ ht2)

/-! Reachability by the API operations, and the main invariants. -/

/-- Databases reachable from the empty store by any sequence of CreateSlot,
UpdateSlot, Book and Cancel calls, with arbitrary arguments (the cancel
userId argument ranges over every possible value of req.user.userId,
covering the deployed wiring as the none instance). -/
inductive Reachable : DB → Prop
  | init : Reachable ⟨[], [], 0⟩
  | createSlot (db : DB) (adminId : Nat) (st en cap : Int) :
      Reachable db → Reachable (createSlot db adminId st en cap).2
  | updateSlot (db : DB) (adminId sid : Nat) (st en cap : Option Int) :
      Reachable db → Reachable (updateSlot db adminId sid st en cap).2
  | book (db : DB) (raw : Option Nat) (cid : Nat) :
      Reachable db → Reachable (createBooking db raw cid).2
  | cancel (db : DB) (raw uid : Option Nat) :
      Reachable db → Reachable (cancelBooking db raw uid).2

theorem reachable_inv {db : DB} (h : Reachable db) :
    WF db ∧ countInv db ∧ capInv db := by
  induction h with
  | init =>
    refine ⟨⟨?_, ?_, ?_, ?_, ?_, ?_⟩, ?_, ?_⟩ <;> simp [countInv, capInv]
  | createSlot db a st en cap hr ih => exact inv_createSlot ih.1 ih.2.1 ih.2.2
  | updateSlot db a sid st en cap hr ih => exact inv_updateSlot ih.1 ih.2.1 ih.2.2
  | book db raw cid hr ih =>
    exact ⟨WF_createBooking ih.1, countInv_createBooking ih.1 ih.2.1,
      capInv_createBooking ih.1 ih.2.2⟩
  | cancel db raw uid hr ih =>
    exact ⟨WF_cancelBooking ih.1, countInv_cancelBooking ih.1 ih.2.1,
      capInv_cancelBooking ih.1 ih.2.1 ih.2.2⟩

/-- C1: after every committed Book or Cancel operation every slot's
bookedCount equals the number of BOOKED reservations referencing it: a
successful Book increments the booked slot's counter by 1 and appends
exactly one BOOKED reservation in the same transaction, a successful
Cancel flips exactly one reservation from BOOKED to CANCELLED and
decrements the referenced slot's counter by 1 in the same transaction,
and every failing path leaves the database unchanged. -/
theorem c1_counter_matches_active_reservations {db : DB}
    (hwf : WF db) (hinv : countInv db) :
    (∀ raw cid,
      countInv (createBooking db raw cid).2 ∧
      ((createBooking db raw cid).1 ≠ BookRes.created →
        (createBooking db raw cid).2 = db) ∧
      ((createBooking db raw cid).1 = BookRes.created → ∃ sid,
        raw = some sid ∧
        slotCount (createBooking db raw cid).2 sid =
          (slotCount db sid).map (fun n => n + 1) ∧
        (createBooking db raw cid).2.bookings =
          db.bookings ++ [⟨db.nextId, sid, cid, BStatus.BOOKED⟩])) ∧
    (∀ raw uid,
      countInv (cancelBooking db raw uid).2 ∧
      ((cancelBooking db raw uid).1 ≠ CancelRes.cancelled →
        (cancelBooking db raw uid).2 = db) ∧
      ((cancelBooking db raw uid).1 = CancelRes.cancelled → ∃ b,
        b ∈ db.bookings ∧ b.status = BStatus.BOOKED ∧
        (cancelBooking db raw uid).2.bookings =
          db.bookings.map (fun x =>
            if x.id = b.id then { x with status := BStatus.CANCELLED } else x) ∧
        slotCount (cancelBooking db raw uid).2 b.slotId =
          (slotCount db b.slotId).map (fun n => n - 1))) := by
  constructor
  · intro raw cid
    refine ⟨countInv_createBooking hwf hinv, fun h => createBooking_fail hwf.1 h, ?_⟩
    intro h
    obtain ⟨sid, hraw, heq, htxn⟩ := createBooking_created_eq_txn h
    obtain ⟨s, l1, l2, hsplit, hid, hlt, hkl1, hkl2, hnopair, hsnd⟩ :=
      createBookingTxn_created hwf.1 htxn
    refine ⟨sid, hraw, ?_, ?_⟩
    · have hfind2 : findSlot (createBooking db raw cid).2 sid =
          some { s with bookedCount := s.bookedCount + 1 } := by
        rw [heq, hsnd]
        unfold findSlot
        exact find?_middle (fun x hx => by simp [hkl1 x hx]) (by simp [hid])
      have hfind1 : findSlot db sid = some s := by
        unfold findSlot
        rw [hsplit]
        exact find?_middle (fun x hx => by simp [hkl1 x hx]) (by simp [hid])
      rw [slotCount, slotCount, hfind1, hfind2]
      rfl
    · rw [heq, hsnd]
  · intro raw uid
    refine ⟨countInv_cancelBooking hwf hinv, fun h => cancelBooking_fail h, ?_⟩
    intro h
    obtain ⟨b, m1, m2, hsplit, hstatus, hm1, hm2, hcase⟩ := cancelBooking_success_db hwf h
    have hbmem : b ∈ db.bookings := by
      rw [hsplit]
      exact List.mem_append.mpr (Or.inr (List.mem_cons_self b m2))
    have hps : (m1 ++ b :: m2).Pairwise (fun a c => a.id ≠ c.id) := hsplit ▸ hwf.2.1
    have hmap := map_update_split Booking.id hps rfl
      (fun x => { x with status := BStatus.CANCELLED })
    have hbookmap : db.bookings.map (fun x =>
        if x.id = b.id then { x with status := BStatus.CANCELLED } else x) =
        m1 ++ { b with status := BStatus.CANCELLED } :: m2 := by
      rw [hsplit]
      exact hmap.2.2
    refine ⟨b, hbmem, hstatus, ?_, ?_⟩
    · rcases hcase with ⟨hno, hsnd⟩ | ⟨s, l1, l2, hssplit, hsid, hl1, hl2, hsnd⟩ <;>
        rw [hsnd, hbookmap]
    · rcases hcase with ⟨hno, hsnd⟩ | ⟨s, l1, l2, hssplit, hsid, hl1, hl2, hsnd⟩
      · have hf1 : findSlot db b.slotId = none := by
          unfold findSlot
          rw [List.find?_eq_none]
          intro x hx
          simp [hno x hx]
        have hf2 : findSlot (cancelBooking db raw uid).2 b.slotId = none := by
          rw [hsnd]
          unfold findSlot
          rw [List.find?_eq_none]
          intro x hx
          simp [hno x hx]
        rw [slotCount, slotCount, hf1, hf2]
        rfl
      · have hf1 : findSlot db b.slotId = some s := by
          unfold findSlot
          rw [hssplit]
          exact find?_middle (fun x hx => by simp [hl1 x hx]) (by simp [hsid])
        have hf2 : findSlot (cancelBooking db raw uid).2 b.slotId =
            some { s with bookedCount := s.bookedCount - 1 } := by
          rw [hsnd]
          unfold findSlot
          exact find?_middle (fun x hx => by simp [hl1 x hx]) (by simp [hsid])
        rw [slotCount, slotCount, hf1, hf2]
        rfl

/-- Concrete database used to witness C1: one slot with spare capacity and
one BOOKED reservation of another candidate. -/
def c1Db : DB := ⟨[⟨5, 0, 10, 2, 1, 9⟩], [⟨7, 5, 2, BStatus.BOOKED⟩], 20⟩

theorem c1_witness :
    countInv (createBooking c1Db (some 5) 1).2 ∧
    countInv (cancelBooking c1Db (some 7) (some 2)).2 :=
  ⟨((c1_counter_matches_active_reservations
      (by unfold WF c1Db; decide) (by unfold countInv c1Db activeCount; decide)).1
      (some 5) 1).1,
   ((c1_counter_matches_active_reservations
      (by unfold WF c1Db; decide) (by unfold countInv c1Db activeCount; decide)).2
      (some 7) (some 2)).1⟩

/-- C2: every slot of a database reachable by any sequence of CreateSlot,
UpdateSlot, Book and Cancel operations has 0 ≤ bookedCount ≤ capacity. -/
theorem c2_booked_count_within_capacity {db : DB} (h : Reachable db) :
    ∀ s ∈ db.slots, 0 ≤ s.bookedCount ∧ s.bookedCount ≤ s.capacity :=
  (reachable_inv h).2.2

theorem c2_witness :
    (⟨0, 0, 10, 2, 1, 9⟩ : Slot) ∈
      (createBooking (createSlot ⟨[], [], 0⟩ 9 0 10 2).2 (some 0) 1).2.slots ∧
    0 ≤ (⟨0, 0, 10, 2, 1, 9⟩ : Slot).bookedCount ∧
    (⟨0, 0, 10, 2, 1, 9⟩ : Slot).bookedCount ≤ (⟨0, 0, 10, 2, 1, 9⟩ : Slot).capacity :=
  ⟨by decide,
   c2_booked_count_within_capacity
     (Reachable.book _ (some 0) 1 (Reachable.createSlot _ 9 0 10 2 Reachable.init))
     ⟨0, 0, 10, 2, 1, 9⟩ (by decide)⟩

/-! Claims C3 and C4: behaviour of the wired cancel route. -/

/-- User list for the C3 scenario: one CANDIDATE with _id 1. -/
def c3Users : List User := [⟨1, "ann", "a@b.c", Role.CANDIDATE⟩]

/-- Database for the C3 scenario: slot 5 with one seat taken, booking 7 on
slot 5 owned by candidate 1 and still BOOKED. -/
def c3Db : DB := ⟨[⟨5, 0, 10, 2, 1, 9⟩], [⟨7, 5, 1, BStatus.BOOKED⟩], 20⟩

/-- C3 (evidence of the code bug): candidate 1 owns the BOOKED reservation
7, authenticates correctly, and cancels their own reservation, yet the
wired route answers 403 Forbidden and changes nothing — because
cancelBooking compares the owner against req.user.userId, a path the
attached User document does not have. The claim says this call succeeds
and decrements the counter. -/
theorem c3_owner_cancel_forbidden :
    (∃ b ∈ c3Db.bookings, b.id = 7 ∧ b.candidateId = 1 ∧ b.status = BStatus.BOOKED) ∧
    authenticate c3Users (some 1) = AuthOutcome.ok ⟨1, "ann", "a@b.c", Role.CANDIDATE⟩ ∧
    cancelRoute c3Users c3Db (some 1) (some 7) =
      (CancelRouteRes.handled CancelRes.forbidden, c3Db) := by
  refine ⟨⟨⟨7, 5, 1, BStatus.BOOKED⟩, by decide, rfl, rfl, rfl⟩, rfl, rfl⟩

/-- User list for the C4 scenario: one CANDIDATE with _id 2. -/
def c4Users : List User := [⟨2, "bob", "b@b.c", Role.CANDIDATE⟩]

/-- Database for the C4 scenario: booking 8 on slot 6 owned by candidate 2. -/
def c4Db : DB := ⟨[⟨6, 0, 10, 3, 1, 9⟩], [⟨8, 6, 2, BStatus.BOOKED⟩], 30⟩

/-- C4 (evidence of the code bug): the claim states Forbidden is returned
iff the reservation's owner differs from the authenticated actor. Here the
authenticated actor (the User record with _id 2 attached by the
authenticate middleware) owns reservation 8, so the claim requires a
non-Forbidden outcome, yet the route returns Forbidden: the ownership
comparison reads req.user.userId, which is undefined on the attached User
document, so it rejects every requester including the owner. -/
theorem c4_forbidden_despite_ownership :
    authenticate c4Users (some 2) = AuthOutcome.ok ⟨2, "bob", "b@b.c", Role.CANDIDATE⟩ ∧
    (∃ b ∈ c4Db.bookings, b.id = 8 ∧ b.candidateId = 2) ∧
    cancelRoute c4Users c4Db (some 2) (some 8) =
      (CancelRouteRes.handled CancelRes.forbidden, c4Db) := by
  refine ⟨rfl, ⟨⟨8, 6, 2, BStatus.BOOKED⟩, by decide, rfl, rfl⟩, rfl⟩

/-! Claim C5: the overlap checker agrees with the interval-intersection
specification. -/

theorem overlapQuery_iff_specOverlap (owner : Nat) (s2 e2 : Int) (excl : Option Nat)
    (s : Slot) (hv : s.startTime < s.endTime) (h2 : s2 < e2) :
    overlapQuery owner s2 e2 excl s = true ↔
      (s.createdBy = owner ∧ (∀ e, excl = some e → s.id ≠ e) ∧
       specOverlap s.startTime s.endTime s2 e2) := by
  cases excl with
  | none =>
    simp only [overlapQuery, specOverlap, Bool.and_eq_true, Bool.or_eq_true,
      decide_eq_true_eq, and_true]
    constructor
    · rintro ⟨hc, hd⟩
      refine ⟨hc, by intro e he; exact Option.noConfusion he, by omega⟩
    · rintro ⟨hc, -, hs1, hs2⟩
      exact ⟨hc, by omega⟩
  | some e =>
    simp only [overlapQuery, specOverlap, Bool.and_eq_true, Bool.or_eq_true,
      decide_eq_true_eq, Option.some.injEq]
    constructor
    · rintro ⟨⟨hc, hd⟩, hne⟩
      refine ⟨hc, ?_, by omega⟩
      intro x hx
      rw [← hx]
      exact hne
    · rintro ⟨hc, hne, hs1, hs2⟩
      exact ⟨⟨hc, by omega⟩, hne e rfl⟩

/-- Stored interval [600, 660) (10:00 to 11:00 in minutes) owned by
admin 7, used for the C5 boundary examples. -/
def c5Db : DB := ⟨[⟨1, 600, 660, 1, 0, 7⟩], [], 2⟩

/-- C5: checkOverlap returns true iff some stored slot of the same owner,
other than the excluded one, satisfies s1 < e2 and s2 < e1 (so intervals
that merely touch do not overlap); with the stored interval
[10:00, 11:00) the candidates [10:30, 10:45), [09:30, 10:15) and
[09:00, 12:00) overlap while [11:00, 12:00) and [08:00, 09:00) do not. -/
theorem c5_overlap_iff_intervals_intersect :
    (∀ (db : DB) (owner : Nat) (s2 e2 : Int) (excl : Option Nat),
      (∀ s ∈ db.slots, s.startTime < s.endTime) → s2 < e2 →
      (checkOverlap db owner s2 e2 excl = true ↔
        ∃ s ∈ db.slots, s.createdBy = owner ∧ (∀ e, excl = some e → s.id ≠ e) ∧
          specOverlap s.startTime s.endTime s2 e2)) ∧
    checkOverlap c5Db 7 630 645 none = true ∧
    checkOverlap c5Db 7 570 615 none = true ∧
    checkOverlap c5Db 7 540 720 none = true ∧
    checkOverlap c5Db 7 660 720 none = false ∧
    checkOverlap c5Db 7 480 540 none = false := by
  refine ⟨?_, by decide, by decide, by decide, by decide, by decide⟩
  intro db owner s2 e2 excl hv h2
  unfold checkOverlap
  rw [List.find?_isSome]
  constructor
  · rintro ⟨s, hs, hq⟩
    exact ⟨s, hs, (overlapQuery_iff_specOverlap owner s2 e2 excl s (hv s hs) h2).mp hq⟩
  · rintro ⟨s, hs, hq⟩
    exact ⟨s, hs, (overlapQuery_iff_specOverlap owner s2 e2 excl s (hv s hs) h2).mpr hq⟩

theorem c5_witness :
    checkOverlap c5Db 7 630 645 none = true ↔
      ∃ s ∈ c5Db.slots, s.createdBy = 7 ∧
        (∀ e, (none : Option Nat) = some e → s.id ≠ e) ∧
        specOverlap s.startTime s.endTime 630 645 :=
  c5_overlap_iff_intervals_intersect.1 c5Db 7 630 645 none (by decide) (by decide)

/-! Claim C7: the fast-fail duplicate check. -/

theorem bookings_pair_key {db : DB} (hwf : WF db) :
    db.bookings.Pairwise (fun a c =>
      (fun x : Booking => (x.slotId, x.candidateId)) a ≠
      (fun x : Booking => (x.slotId, x.candidateId)) c) := by
  refine hwf.2.2.1.imp ?_
  intro a c hac heq
  simp only [Prod.mk.injEq] at heq
  rcases hac with h1 | h1
  · exact h1 heq.1
  · exact h1 heq.2

/-- C7: when the actor already holds a BOOKED reservation on the slot, a
second Book call by that actor returns the 409 duplicate result from the
fast-fail pre-check, performs no mutation, and in particular creates no
second reservation. -/
theorem c7_duplicate_active_fast_fail {db : DB} {sid cid : Nat} {b : Booking}
    (hwf : WF db) (hb : b ∈ db.bookings) (hslot : b.slotId = sid)
    (hcand : b.candidateId = cid) (hstatus : b.status = BStatus.BOOKED) :
    createBooking db (some sid) cid = (BookRes.duplicateBooking, db) := by
  have hfind : db.bookings.find?
      (fun x => decide (x.slotId = sid ∧ x.candidateId = cid)) = some b := by
    refine find?_eq_of_mem_unique (fun x : Booking => (x.slotId, x.candidateId))
      (bookings_pair_key hwf) hb (by simp [hslot, hcand]) ?_
    intro x hpx
    simp only [decide_eq_true_eq] at hpx
    simp [hpx.1, hpx.2, hslot, hcand]
  unfold createBooking
  simp only [hfind]
  rw [if_pos hstatus]

/-- Concrete scenario for the C7 witness: slot 5 is full and candidate 2
already holds the BOOKED reservation 7 on it. -/
def c7Db : DB := ⟨[⟨5, 0, 10, 1, 1, 9⟩], [⟨7, 5, 2, BStatus.BOOKED⟩], 20⟩

theorem c7_witness :
    createBooking c7Db (some 5) 2 = (BookRes.duplicateBooking, c7Db) :=
  c7_duplicate_active_fast_fail (b := ⟨7, 5, 2, BStatus.BOOKED⟩)
    (by unfold WF c7Db; decide) (by decide) rfl rfl rfl

/-! Claim C8: the capacity reduction guard of updateSlot. -/

/-- Slot owned by admin 2 with capacity 5 and bookedCount 0, used to refute
the unrestricted acceptance statement of C8. -/
def c8Db : DB := ⟨[⟨5, 0, 10, 5, 0, 2⟩], [], 20⟩

/-- C8 counterexample: owner 2 requests capacity 0 on slot 5 whose
bookedCount is 0. The requested capacity is not below bookedCount, so the
claim says it is accepted; instead slot.save() fails the schema validator
(capacity min 1), the call returns the 500 validation failure, and the
stored capacity stays 5. -/
theorem c8_counterexample :
    (∃ s ∈ c8Db.slots, s.id = 5 ∧ s.createdBy = 2 ∧ s.bookedCount ≤ (0 : Int)) ∧
    updateSlot c8Db 2 5 none none (some 0) = (SlotUpdateRes.validationFailed, c8Db) ∧
    ∀ s ∈ (updateSlot c8Db 2 5 none none (some 0)).2.slots, s.capacity = 5 := by
  decide

theorem eq_of_mem_unique_key {α β : Type} (key : α → β) {l : List α} {a b : α}
    (hp : l.Pairwise (fun x y => key x ≠ key y)) (ha : a ∈ l) (hb : b ∈ l)
    (hk : key a = key b) : a = b := by
  induction l with
  | nil => cases ha
  | cons c t ih =>
    obtain ⟨hhead, htail⟩ := List.pairwise_cons.mp hp
    rcases List.mem_cons.mp ha with rfl | ha2
    · rcases List.mem_cons.mp hb with rfl | hb2
      · rfl
      · exact absurd hk (hhead b hb2)
    · rcases List.mem_cons.mp hb with rfl | hb2
      · exact absurd hk.symm (hhead a ha2)
    
      · exact ih htail ha2 hb2

/-- C8 (amended): an UpdateSlot call by the owner requesting only a new
capacity c returns the 409 capacity conflict and leaves the store
unchanged when c < bookedCount; when bookedCount ≤ c but c < 1 the
schema validator rejects the save (500, store unchanged); and when
c ≥ max(bookedCount, 1) the new capacity is persisted. In particular a
slot with capacity 5 and bookedCount 3 rejects capacity 2 and accepts
capacity 3. -/
theorem c8_capacity_guard {db : DB} {adminId : Nat} {s : Slot} {c : Int}
    (hwf : WF db) (hmem : s ∈ db.slots) (hown : s.createdBy = adminId) :
    (c < s.bookedCount →
      updateSlot db adminId s.id none none (some c) =
        (SlotUpdateRes.capacityConflict, db)) ∧
    (s.bookedCount ≤ c → c < 1 →
      updateSlot db adminId s.id none none (some c) =
        (SlotUpdateRes.validationFailed, db)) ∧
    (s.bookedCount ≤ c → 1 ≤ c →
      updateSlot db adminId s.id none none (some c) =
        (SlotUpdateRes.updated { s with capacity := c },
         { db with slots := db.slots.map (fun t =>
             if t.id = s.id then { s with capacity := c } else t) })) := by
  have hfind : db.slots.find? (fun x => decide (x.id = s.id)) = some s := by
    refine find?_eq_of_mem_unique Slot.id hwf.1 hmem (by simp) ?_
    intro x hx
    simpa using hx
  have hstep : updateSlot db adminId s.id none none (some c) =
      updateSlotCap db s (some c) := by
    unfold updateSlot
    simp only [hfind]
    rw [if_neg (show ¬s.createdBy ≠ adminId from fun hne => hne hown)]
    rfl
  have hcap : updateSlotCap db s (some c) =
      (if c < s.bookedCount then (SlotUpdateRes.capacityConflict, db)
       else saveSlot db { s with capacity := c }) := rfl
  refine ⟨?_, ?_, ?_⟩
  · intro hlt
    rw [hstep, hcap, if_pos hlt]
  · intro hge hlt1
    rw [hstep, hcap, if_neg (by omega)]
    unfold saveSlot
    rw [if_pos (by simpa using hlt1)]
  · intro hge hge1
    rw [hstep, hcap, if_neg (by omega)]
    unfold saveSlot
    rw [if_neg (by simp only; omega)]

/-- Slot owned by admin 2 with capacity 5 and bookedCount 3, the
spec example for the capacity reduction guard. -/
def c8DbW : DB := ⟨[⟨5, 0, 10, 5, 3, 2⟩], [], 20⟩

theorem c8_witness :
    updateSlot c8DbW 2 5 none none (some 2) = (SlotUpdateRes.capacityConflict, c8DbW) ∧
    (updateSlot c8DbW 2 5 none none (some 3)).1 =
      SlotUpdateRes.updated ⟨5, 0, 10, 3, 3, 2⟩ := by
  have hwf : WF c8DbW := by unfold WF c8DbW; decide
  have hmem : (⟨5, 0, 10, 5, 3, 2⟩ : Slot) ∈ c8DbW.slots := by decide
  have h := c8_capacity_guard (c := 2) hwf hmem rfl
  have h3 := c8_capacity_guard (c := 3) hwf hmem rfl
  refine ⟨h.1 (by decide), ?_⟩
  rw [h3.2.2 (by decide) (by decide)]

/-! Claims C6 and C10: outcome taxonomy of the Book transaction. -/

theorem createBooking_created_slotCount {db : DB} {raw : Option Nat} {cid : Nat}
    (hpair : db.slots.Pairwise (fun a c => a.id ≠ c.id))
    (h : (createBooking db raw cid).1 = BookRes.created) :
    ∃ sid, raw = some sid ∧
      slotCount (createBooking db raw cid).2 sid =
        (slotCount db sid).map (fun n => n + 1) := by
  obtain ⟨sid, hraw, heq, htxn⟩ := createBooking_created_eq_txn h
  obtain ⟨s, l1, l2, hsplit, hid, hlt, hkl1, hkl2, hnopair, hsnd⟩ :=
    createBookingTxn_created hpair htxn
  refine ⟨sid, hraw, ?_⟩
  have hfind2 : findSlot (createBooking db raw cid).2 sid =
      some { s with bookedCount := s.bookedCount + 1 } := by
    rw [heq, hsnd]
    unfold findSlot
    exact find?_middle (fun x hx => by simp [hkl1 x hx]) (by simp [hid])
  have hfind1 : findSlot db sid = some s := by
    unfold findSlot
    rw [hsplit]
    exact find?_middle (fun x hx => by simp [hkl1 x hx]) (by simp [hid])
  rw [slotCount, slotCount, hfind1, hfind2]
  rfl

/-- Database refuting C6 as stated: candidate 1 holds only a CANCELLED
reservation on slot 5, which has room. -/
def c6Db : DB := ⟨[⟨5, 0, 10, 2, 0, 9⟩], [⟨7, 5, 1, BStatus.CANCELLED⟩], 20⟩

/-- C6 counterexample: candidate 1 has no BOOKED (ACTIVE) reservation on
slot 5 and the slot exists with bookedCount 0 < capacity 2, so the claim
asserts this Book call increments the counter by 1; instead the CANCELLED
record violates the unique index at the insert, the transaction aborts,
and the call returns the 409 duplicate with the whole store — counter
included — unchanged. -/
theorem c6_counterexample :
    (∀ b ∈ c6Db.bookings,
      ¬(b.slotId = 5 ∧ b.candidateId = 1 ∧ b.status = BStatus.BOOKED)) ∧
    (∃ s ∈ c6Db.slots, s.id = 5 ∧ s.bookedCount < s.capacity) ∧
    createBooking c6Db (some 5) 1 = (BookRes.duplicateBooking, c6Db) := by
  decide

/-- C6 (amended): for a Book call with a well-formed slotId by an actor
with no prior reservation record of any status on that slot: if the slot
exists with bookedCount < capacity the call succeeds and the conditional
update increments the counter by exactly 1; if no slot with that id
exists the call returns the 404 with no state change; if the slot exists
but is full the call returns the 409 capacity conflict with no state
change. The two failure kinds are told apart exactly by slot existence. -/
theorem c6_conditional_update_taxonomy {db : DB} {sid cid : Nat}
    (hwf : WF db)
    (hnores : ∀ b ∈ db.bookings, ¬(b.slotId = sid ∧ b.candidateId = cid)) :
    (∀ s ∈ db.slots, s.id = sid → s.bookedCount < s.capacity →
      (createBooking db (some sid) cid).1 = BookRes.created ∧
      slotCount (createBooking db (some sid) cid).2 sid =
        (slotCount db sid).map (fun n => n + 1)) ∧
    ((∀ s ∈ db.slots, s.id ≠ sid) →
      createBooking db (some sid) cid = (BookRes.slotNotFound, db)) ∧
    (∀ s ∈ db.slots, s.id = sid → s.capacity ≤ s.bookedCount →
      createBooking db (some sid) cid = (BookRes.slotFull, db)) := by
  have hfast : db.bookings.find?
      (fun b => decide (b.slotId = sid ∧ b.candidateId = cid)) = none := by
    rw [List.find?_eq_none]
    intro b hb
    simpa using hnores b hb
  have hcb : createBooking db (some sid) cid = createBookingTxn db sid cid := by
    unfold createBooking
    simp only [hfast]
  have hany : db.bookings.any
      (fun b => decide (b.slotId = sid ∧ b.candidateId = cid)) = false := by
    rw [List.any_eq_false]
    intro b hb
    simpa using hnores b hb
  refine ⟨?_, ?_, ?_⟩
  · intro s hs hid hlt
    have hfind : db.slots.find?
        (fun x => decide (x.id = sid ∧ x.bookedCount < x.capacity)) = some s := by
      refine find?_eq_of_mem_unique Slot.id hwf.1 hs (by simp [hid, hlt]) ?_
      intro x hx
      simp only [decide_eq_true_eq] at hx
      rw [hx.1, hid]
    have hcond : condIncSlot db sid =
        (some { s with bookedCount := s.bookedCount + 1 },
         { db with slots := db.slots.map (fun t =>
             if t.id = s.id then { s with bookedCount := s.bookedCount + 1 } else t) }) := by
      unfold condIncSlot
      rw [hfind]
    have hcreated : (createBooking db (some sid) cid).1 = BookRes.created := by
      rw [hcb]
      unfold createBookingTxn
      simp only [hcond]
      rw [if_neg (by rw [hany]; exact Bool.false_ne_true)]
    refine ⟨hcreated, ?_⟩
    obtain ⟨sid2, hraw2, hcount⟩ := createBooking_created_slotCount hwf.1 hcreated
    cases hraw2
    exact hcount
  · intro hno
    have hfind : db.slots.find?
        (fun x => decide (x.id = sid ∧ x.bookedCount < x.capacity)) = none := by
      rw [List.find?_eq_none]
      intro x hx
      simp only [decide_eq_true_eq, not_and]
      intro hc
      exact absurd hc (hno x hx)
    have hcond : condIncSlot db sid = (none, db) := by
      unfold condIncSlot
      rw [hfind]
    have hexists : findSlot db sid = none := by
      unfold findSlot
      rw [List.find?_eq_none]
      intro x hx
      simpa using hno x hx
    rw [hcb]
    unfold createBookingTxn
    simp only [hcond]
    rw [hexists]
    rfl
  · intro s hs hid hfull
    have hfind : db.slots.find?
        (fun x => decide (x.id = sid ∧ x.bookedCount < x.capacity)) = none := by
      rw [List.find?_eq_none]
      intro x hx
      simp only [decide_eq_true_eq, not_and]
      intro hcid hlt
      have hxs : x = s := eq_of_mem_unique_key Slot.id hwf.1 hx hs
        (by rw [hcid, hid])
      rw [hxs] at hlt
      omega
    have hcond : condIncSlot db sid = (none, db) := by
      unfold condIncSlot
      rw [hfind]
    have hexists : findSlot db sid = some s := by
      refine find?_eq_of_mem_unique Slot.id hwf.1 hs (by simp [hid]) ?_
      intro x hx
      simp only [decide_eq_true_eq] at hx
      rw [hx, hid]
    rw [hcb]
    unfold createBookingTxn
    simp only [hcond]
    rw [hexists]
    rfl

/-- Database for the C6 witness: an empty booking set and slot 5 with
room. -/
def c6DbW : DB := ⟨[⟨5, 0, 10, 2, 0, 9⟩], [], 20⟩

theorem c6_witness :
    (createBooking c6DbW (some 5) 1).1 = BookRes.created ∧
    slotCount (createBooking c6DbW (some 5) 1).2 5 =
      (slotCount c6DbW 5).map (fun n => n + 1) :=
  (c6_conditional_update_taxonomy (by unfold WF c6DbW; decide) (by decide)).1
    ⟨5, 0, 10, 2, 0, 9⟩ (by decide) rfl (by decide)

/-- Database for C10: candidate 1 cancelled their reservation on slot 5
earlier; the CANCELLED record is retained. -/
def c10Db : DB := ⟨[⟨5, 0, 10, 2, 0, 9⟩], [⟨7, 5, 1, BStatus.CANCELLED⟩], 20⟩

/-- C10: when the actor's reservation record on the slot is CANCELLED, a
new Book call passes the fast-fail pre-check (which only rejects BOOKED
records) but can never commit: the insert violates the unique
(slotId, candidateId) index, the transaction aborts and rolls back the
counter increment, so the call always fails with the whole store
unchanged, and returns the 409 duplicate whenever the slot exists with
spare capacity. -/
theorem c10_rebook_after_cancel_rejected {db : DB} {sid cid : Nat} {b : Booking}
    (hwf : WF db) (hb : b ∈ db.bookings) (hslot : b.slotId = sid)
    (hcand : b.candidateId = cid) (hstatus : b.status = BStatus.CANCELLED) :
    (createBooking db (some sid) cid).1 ≠ BookRes.created ∧
    (createBooking db (some sid) cid).2 = db ∧
    (∀ s ∈ db.slots, s.id = sid → s.bookedCount < s.capacity →
      (createBooking db (some sid) cid).1 = BookRes.duplicateBooking) := by
  have hfind : db.bookings.find?
      (fun x => decide (x.slotId = sid ∧ x.candidateId = cid)) = some b := by
    refine find?_eq_of_mem_unique (fun x : Booking => (x.slotId, x.candidateId))
      (bookings_pair_key hwf) hb (by simp [hslot, hcand]) ?_
    intro x hpx
    simp only [decide_eq_true_eq] at hpx
    simp [hpx.1, hpx.2, hslot, hcand]
  have hcb : createBooking db (some sid) cid = createBookingTxn db sid cid := by
    unfold createBooking
    simp only [hfind]
    rw [if_neg (by rw [hstatus]; intro hc; exact BStatus.noConfusion hc)]
  have hany : db.bookings.any
      (fun x => decide (x.slotId = sid ∧ x.candidateId = cid)) = true :=
    List.any_eq_true.mpr ⟨b, hb, by simp [hslot, hcand]⟩
  have hnotcreated : (createBookingTxn db sid cid).1 ≠ BookRes.created := by
    cases ho : (condIncSlot db sid).1 with
    | none =>
      obtain ⟨heq, -⟩ := condIncSlot_fst_none ho
      unfold createBookingTxn
      simp only [heq]
      split <;> intro hc <;> exact BookRes.noConfusion hc
    | some s2 =>
      obtain ⟨s, l1, l2, hsplit, hid, hlt, hkl1, hkl2, heq⟩ :=
        condIncSlot_fst_some hwf.1 ho
      unfold createBookingTxn
      simp only [heq]
      rw [if_pos hany]
      intro hc
      exact BookRes.noConfusion hc
  refine ⟨hcb ▸ hnotcreated, ?_, ?_⟩
  · rw [hcb]
    exact createBookingTxn_fail hwf.1 hnotcreated
  · intro s hs hid hlt
    have hfinds : db.slots.find?
        (fun x => decide (x.id = sid ∧ x.bookedCount < x.capacity)) = some s := by
      refine find?_eq_of_mem_unique Slot.id hwf.1 hs (by simp [hid, hlt]) ?_
      intro x hx
      simp only [decide_eq_true_eq] at hx
      rw [hx.1, hid]
    have hcond : condIncSlot db sid =
        (some { s with bookedCount := s.bookedCount + 1 },
         { db with slots := db.slots.map (fun t =>
             if t.id = s.id then { s with bookedCount := s.bookedCount + 1 } else t) }) := by
      unfold condIncSlot
      rw [hfinds]
    rw [hcb]
    unfold createBookingTxn
    simp only [hcond]
    rw [if_pos hany]

theorem c10_witness :
    (createBooking c10Db (some 5) 1).1 ≠ BookRes.created ∧
    (createBooking c10Db (some 5) 1).2 = c10Db ∧
    (createBooking c10Db (some 5) 1).1 = BookRes.duplicateBooking := by
  have hwf : WF c10Db := by unfold WF c10Db; decide
  have hmem : (⟨7, 5, 1, BStatus.CANCELLED⟩ : Booking) ∈ c10Db.bookings := by decide
  have h := c10_rebook_after_cancel_rejected hwf hmem rfl rfl rfl
  exact ⟨h.1, h.2.1, h.2.2 ⟨5, 0, 10, 2, 0, 9⟩ (by decide) rfl (by decide)⟩

/-! Claim C9: the booking race. N Book requests race on one slot of
capacity 1; every store access of createBooking is one atomic,
sequentially consistent action, and the scheduler may interleave the
requests' actions arbitrarily. -/

/-- Fast-fail read of createBooking as a predicate over the current
store: true exactly when the handler would return the 409 duplicate
before entering the transaction (a BOOKED record for the pair exists). -/
def hasActivePair (db : DB) (sid cid : Nat) : Bool :=
  match db.bookings.find? (fun b => decide (b.slotId = sid ∧ b.candidateId = cid)) with
  | none => false
  | some b => decide (b.status = BStatus.BOOKED)

/-- Program counter of one in-flight Book request: before the fast-fail
read, past it, holding the conditional increment, past a failed
conditional update, or terminated in one of the four outcomes. -/
inductive RStage
  | start
  | checked
  | won
  | failed
  | doneOk
  | doneFull
  | doneDup
  | doneNotFound
  deriving DecidableEq, Repr

/-- Global state of the race: the store plus the stage of each request
(request i is stage[i], its actor is actor i). -/
structure Race where
  db : DB
  stage : List RStage
  deriving Repr

/-- One atomic store access by request i, mirroring one store operation
of createBooking: the fast-fail read, the conditional findOneAndUpdate,
the reservation insert with commit (or the unique-index abort, which
rolls the increment back), and the post-failure existence check that
tells 409 SlotFull (doneFull) from 404 (doneNotFound). -/
inductive RaceStep (sid : Nat) (actor : Nat → Nat) : Race → Race → Prop
  | fastFail (r : Race) (i : Nat) (h : r.stage[i]? = some RStage.start) :
      RaceStep sid actor r
        ⟨r.db, r.stage.set i
          (if hasActivePair r.db sid (actor i) then RStage.doneDup else RStage.checked)⟩
  | incWin (r : Race) (i : Nat) (s2 : Slot) (db2 : DB)
      (h : r.stage[i]? = some RStage.checked)
      (h2 : condIncSlot r.db sid = (some s2, db2)) :
      RaceStep sid actor r ⟨db2, r.stage.set i RStage.won⟩
  | incLose (r : Race) (i : Nat)
      (h : r.stage[i]? = some RStage.checked)
      (h2 : (condIncSlot r.db sid).1 = none) :
      RaceStep sid actor r ⟨r.db, r.stage.set i RStage.failed⟩
  | insertOk (r : Race) (i : Nat)
      (h : r.stage[i]? = some RStage.won)
      (h2 : r.db.bookings.any
        (fun b => decide (b.slotId = sid ∧ b.candidateId = actor i)) = false) :
      RaceStep sid actor r
        ⟨{ r.db with
           bookings := r.db.bookings ++ [⟨r.db.nextId, sid, actor i, BStatus.BOOKED⟩]
           nextId := r.db.nextId + 1 },
         r.stage.set i RStage.doneOk⟩
  | insertDup (r : Race) (i : Nat)
      (h : r.stage[i]? = some RStage.won)
      (h2 : r.db.bookings.any
        (fun b => decide (b.slotId = sid ∧ b.candidateId = actor i)) = true) :
      RaceStep sid actor r ⟨decSlot r.db sid, r.stage.set i RStage.doneDup⟩
  | classify (r : Race) (i : Nat)
      (h : r.stage[i]? = some RStage.failed) :
      RaceStep sid actor r
        ⟨r.db, r.stage.set i
          (if (findSlot r.db sid).isSome then RStage.doneFull else RStage.doneNotFound)⟩

/-- Number of requests currently counted in the slot: those that hold the
conditional increment (won) or have committed (doneOk). -/
def holders (st : List RStage) : Nat :=
  st.countP (fun x => decide (x = RStage.won ∨ x = RStage.doneOk))

/-- Initial race state: a fresh slot with capacity 1 and bookedCount 0, no
reservations, and n requests about to run. -/
def raceInit (sid : Nat) (st0 en0 : Int) (owner nid n : Nat) : Race :=
  ⟨⟨[⟨sid, st0, en0, 1, 0, owner⟩], [], nid⟩, List.replicate n RStage.start⟩

/-- Inductive invariant of the race: the slot's counter equals the number
of holders and never exceeds the capacity 1, every reservation belongs to
a committed request, no request ever ends in the duplicate or not-found
outcomes, and as soon as some request has failed the conditional update
the seat is held for good. -/
def RaceInv (sid : Nat) (actor : Nat → Nat) (st0 en0 : Int) (owner n : Nat)
    (r : Race) : Prop :=
  r.db.slots = [⟨sid, st0, en0, 1, (holders r.stage : Int), owner⟩] ∧
  holders r.stage ≤ 1 ∧
  (∀ b ∈ r.db.bookings, b.slotId = sid ∧ b.status = BStatus.BOOKED ∧
    ∃ i, r.stage[i]? = some RStage.doneOk ∧ b.candidateId = actor i) ∧
  RStage.doneDup ∉ r.stage ∧ RStage.doneNotFound ∉ r.stage ∧
  ((∃ x ∈ r.stage, x = RStage.failed ∨ x = RStage.doneFull) → holders r.stage = 1) ∧
  r.stage.length = n

theorem countP_set_stage {l : List RStage} {i : Nat} {a : RStage} (p : RStage → Bool)
    (h : l[i]? = some a) (v : RStage) :
    (l.set i v).countP p + (if p a then 1 else 0) = l.countP p + (if p v then 1 else 0) := by
  obtain ⟨hlt, hget⟩ := List.getElem?_eq_some.mp h
  rw [List.countP_set p l i v hlt, hget]
  by_cases hp : p a = true
  · have hpos : 0 < l.countP p :=
      List.countP_pos_iff.mpr ⟨a, hget ▸ List.getElem_mem hlt, hp⟩
    rw [if_pos hp]
    omega
  · rw [if_neg hp]
    omega

theorem condIncSlot_race_zero (db : DB) (sid : Nat) (st0 en0 : Int) (owner : Nat)
    (hslots : db.slots = [⟨sid, st0, en0, 1, ((0 : Nat) : Int), owner⟩]) :
    condIncSlot db sid =
      (some ⟨sid, st0, en0, 1, 1, owner⟩,
       { db with slots := [⟨sid, st0, en0, 1, 1, owner⟩] }) := by
  unfold condIncSlot
  rw [hslots]
  rw [List.find?_cons_of_pos _ (by simp)]
  simp

theorem condIncSlot_race_one (db : DB) (sid : Nat) (st0 en0 : Int) (owner : Nat)
    (hslots : db.slots = [⟨sid, st0, en0, 1, ((1 : Nat) : Int), owner⟩]) :
    condIncSlot db sid = (none, db) := by
  unfold condIncSlot
  rw [hslots]
  rw [show List.find? (fun s => decide (s.id = sid ∧ s.bookedCount < s.capacity))
      [(⟨sid, st0, en0, 1, ((1 : Nat) : Int), owner⟩ : Slot)] = none from by
    rw [List.find?_eq_none]
    intro x hx
    rw [List.mem_singleton.mp hx]
    simp]

theorem holders_set {l : List RStage} {i : Nat} {a : RStage}
    (h : l[i]? = some a) (v : RStage) :
    holders (l.set i v) + (if a = RStage.won ∨ a = RStage.doneOk then 1 else 0) =
    holders l + (if v = RStage.won ∨ v = RStage.doneOk then 1 else 0) := by
  have hw := countP_set_stage (fun x => decide (x = RStage.won ∨ x = RStage.doneOk)) h v
  unfold holders
  simpa using hw

theorem stage_mem_of_getElem {l : List RStage} {i : Nat} {a : RStage}
    (h : l[i]? = some a) : a ∈ l := by
  obtain ⟨hlt, hget⟩ := List.getElem?_eq_some.mp h
  exact hget ▸ List.getElem_mem hlt

theorem raceStep_inv {sid : Nat} {actor : Nat → Nat} {st0 en0 : Int} {owner n : Nat}
    (hinj : Function.Injective actor) {r r2 : Race}
    (hstep : RaceStep sid actor r r2)
    (hinv : RaceInv sid actor st0 en0 owner n r) :
    RaceInv sid actor st0 en0 owner n r2 := by
  obtain ⟨h1, h2, h3, h4, h5, h6, h7⟩ := hinv
  cases hstep with
  | fastFail i h =>
    have hap : hasActivePair r.db sid (actor i) = false := by
      unfold hasActivePair
      cases hf : r.db.bookings.find?
          (fun b => decide (b.slotId = sid ∧ b.candidateId = actor i)) with
      | none => rfl
      | some b =>
        exfalso
        have hbmem := List.mem_of_find?_eq_some hf
        have hbp := List.find?_some hf
        simp only [decide_eq_true_eq] at hbp
        obtain ⟨-, -, j, hj, hcand⟩ := h3 b hbmem
        have hij : j = i := hinj (by rw [← hcand, hbp.2])
        rw [hij, h] at hj
        exact RStage.noConfusion (Option.some.inj hj)
    rw [hap, if_neg Bool.false_ne_true]
    have hset : holders (r.stage.set i RStage.checked) = holders r.stage := by
      have hx := holders_set h RStage.checked
      simp at hx
      exact hx
    refine ⟨?_, ?_, ?_, ?_, ?_, ?_, ?_⟩
    · rw [show (⟨r.db, r.stage.set i RStage.checked⟩ : Race).stage =
        r.stage.set i RStage.checked from rfl, hset]
      exact h1
    · rw [show (⟨r.db, r.stage.set i RStage.checked⟩ : Race).stage =
        r.stage.set i RStage.checked from rfl, hset]
      exact h2
    · intro b hb
      obtain ⟨hbs, hbst, j, hj, hcand⟩ := h3 b hb
      refine ⟨hbs, hbst, j, ?_, hcand⟩
      have hji : i ≠ j := by
        intro he
        rw [← he, h] at hj
        exact RStage.noConfusion (Option.some.inj hj)
      rw [List.getElem?_set_ne hji]
      exact hj
    · intro hmem
      rcases List.mem_or_eq_of_mem_set hmem with hmem2 | he
      · exact h4 hmem2
      · exact RStage.noConfusion he
    · intro hmem
      rcases List.mem_or_eq_of_mem_set hmem with hmem2 | he
      · exact h5 hmem2
      · exact RStage.noConfusion he
    · rintro ⟨x, hx, hxor⟩
      rcases List.mem_or_eq_of_mem_set hx with hx2 | rfl
      · rw [show (⟨r.db, r.stage.set i RStage.checked⟩ : Race).stage =
          r.stage.set i RStage.checked from rfl, hset]
        exact h6 ⟨x, hx2, hxor⟩
      · rcases hxor with he | he <;> exact RStage.noConfusion he
    · rw [show (⟨r.db, r.stage.set i RStage.checked⟩ : Race).stage =
        r.stage.set i RStage.checked from rfl, List.length_set]
      exact h7
  | incWin i s2 db2 h h2 =>
    have hW01 : holders r.stage = 0 ∨ holders r.stage = 1 := by omega
    rcases hW01 with hW | hW
    · rw [hW] at h1
      have hcond := condIncSlot_race_zero r.db sid st0 en0 owner h1
      rw [h2, Prod.mk.injEq] at hcond
      obtain ⟨hs2, hdb2⟩ := hcond
      have hset : holders (r.stage.set i RStage.won) = 1 := by
        have hx := holders_set h RStage.won
        simp at hx
        omega
      refine ⟨?_, ?_, ?_, ?_, ?_, ?_, ?_⟩
      · rw [show (⟨db2, r.stage.set i RStage.won⟩ : Race).stage =
          r.stage.set i RStage.won from rfl, hset,
          show (⟨db2, r.stage.set i RStage.won⟩ : Race).db = db2 from rfl, hdb2]
        norm_num
      · rw [show (⟨db2, r.stage.set i RStage.won⟩ : Race).stage =
          r.stage.set i RStage.won from rfl, hset]
      · intro b hb
        rw [show (⟨db2, r.stage.set i RStage.won⟩ : Race).db = db2 from rfl, hdb2] at hb
        obtain ⟨hbs, hbst, j, hj, hcand⟩ := h3 b hb
        refine ⟨hbs, hbst, j, ?_, hcand⟩
        have hji : i ≠ j := by
          intro he
          rw [← he, h] at hj
          exact RStage.noConfusion (Option.some.inj hj)
        rw [List.getElem?_set_ne hji]
        exact hj
      · intro hmem
        rcases List.mem_or_eq_of_mem_set hmem with hmem2 | he
        · exact h4 hmem2
        · exact RStage.noConfusion he
      · intro hmem
        rcases List.mem_or_eq_of_mem_set hmem with hmem2 | he
        · exact h5 hmem2
        · exact RStage.noConfusion he
      · intro hexist
        rw [show (⟨db2, r.stage.set i RStage.won⟩ : Race).stage =
          r.stage.set i RStage.won from rfl, hset]
      · rw [show (⟨db2, r.stage.set i RStage.won⟩ : Race).stage =
          r.stage.set i RStage.won from rfl, List.length_set]
        exact h7
    · exfalso
      rw [hW] at h1
      have hcond := condIncSlot_race_one r.db sid st0 en0 owner h1
      rw [h2, Prod.mk.injEq] at hcond
      exact Option.noConfusion hcond.1
  | incLose i h h2 =>
    have hW01 : holders r.stage = 0 ∨ holders r.stage = 1 := by omega
    rcases hW01 with hW | hW
    · exfalso
      rw [hW] at h1
      have hcond := condIncSlot_race_zero r.db sid st0 en0 owner h1
      rw [hcond] at h2
      exact Option.noConfusion h2
    · have hset : holders (r.stage.set i RStage.failed) = 1 := by
        have hx := holders_set h RStage.failed
        simp at hx
        omega
      refine ⟨?_, ?_, ?_, ?_, ?_, ?_, ?_⟩
      · rw [show (⟨r.db, r.stage.set i RStage.failed⟩ : Race).stage =
          r.stage.set i RStage.failed from rfl, hset, ← hW]
        exact h1
      · rw [show (⟨r.db, r.stage.set i RStage.failed⟩ : Race).stage =
          r.stage.set i RStage.failed from rfl, hset]
      · intro b hb
        obtain ⟨hbs, hbst, j, hj, hcand⟩ := h3 b hb
        refine ⟨hbs, hbst, j, ?_, hcand⟩
        have hji : i ≠ j := by
          intro he
          rw [← he, h] at hj
          exact RStage.noConfusion (Option.some.inj hj)
        rw [List.getElem?_set_ne hji]
        exact hj
      · intro hmem
        rcases List.mem_or_eq_of_mem_set hmem with hmem2 | he
        · exact h4 hmem2
        · exact RStage.noConfusion he
      · intro hmem
        rcases List.mem_or_eq_of_mem_set hmem with hmem2 | he
        · exact h5 hmem2
        · exact RStage.noConfusion he
      · intro hexist
        rw [show (⟨r.db, r.stage.set i RStage.failed⟩ : Race).stage =
          r.stage.set i RStage.failed from rfl, hset]
      · rw [show (⟨r.db, r.stage.set i RStage.failed⟩ : Race).stage =
          r.stage.set i RStage.failed from rfl, List.length_set]
        exact h7
  | insertOk i h h2 =>
    have hW1 : holders r.stage = 1 := by
      have hpos : 0 < holders r.stage := by
        unfold holders
        exact List.countP_pos_iff.mpr ⟨RStage.won, stage_mem_of_getElem h, by simp⟩
      omega
    have hset : holders (r.stage.set i RStage.doneOk) = 1 := by
      have hx := holders_set h RStage.doneOk
      simp at hx
      omega
    have hlt : i < r.stage.length := (List.getElem?_eq_some.mp h).1
    refine ⟨?_, ?_, ?_, ?_, ?_, ?_, ?_⟩
    · rw [show (⟨_, r.stage.set i RStage.doneOk⟩ : Race).stage =
        r.stage.set i RStage.doneOk from rfl, hset, ← hW1]
      exact h1
    · rw [show (⟨_, r.stage.set i RStage.doneOk⟩ : Race).stage =
        r.stage.set i RStage.doneOk from rfl, hset]
    · intro b hb
      rcases List.mem_append.mp hb with hb1 | hb2
      · obtain ⟨hbs, hbst, j, hj, hcand⟩ := h3 b hb1
        refine ⟨hbs, hbst, j, ?_, hcand⟩
        have hji : i ≠ j := by
          intro he
          rw [← he, h] at hj
          exact RStage.noConfusion (Option.some.inj hj)
        rw [List.getElem?_set_ne hji]
        exact hj
      · rw [List.mem_singleton.mp hb2]
        exact ⟨rfl, rfl, i, List.getElem?_set_self hlt, rfl⟩
    · intro hmem
      rcases List.mem_or_eq_of_mem_set hmem with hmem2 | he
      · exact h4 hmem2
      · exact RStage.noConfusion he
    · intro hmem
      rcases List.mem_or_eq_of_mem_set hmem with hmem2 | he
      · exact h5 hmem2
      · exact RStage.noConfusion he
    · intro hexist
      rw [show (⟨_, r.stage.set i RStage.doneOk⟩ : Race).stage =
        r.stage.set i RStage.doneOk from rfl, hset]
    · rw [show (⟨_, r.stage.set i RStage.doneOk⟩ : Race).stage =
        r.stage.set i RStage.doneOk from rfl, List.length_set]
      exact h7
  | insertDup i h h2 =>
    exfalso
    obtain ⟨b, hbmem, hbp⟩ := List.any_eq_true.mp h2
    simp only [decide_eq_true_eq] at hbp
    obtain ⟨-, -, j, hj, hcand⟩ := h3 b hbmem
    have hij : j = i := hinj (by rw [← hcand, hbp.2])
    rw [hij, h] at hj
    exact RStage.noConfusion (Option.some.inj hj)
  | classify i h =>
    have hW1 : holders r.stage = 1 :=
      h6 ⟨RStage.failed, stage_mem_of_getElem h, Or.inl rfl⟩
    have hfind : (findSlot r.db sid).isSome = true := by
      unfold findSlot
      rw [h1, List.find?_cons_of_pos _ (by simp)]
      rfl
    rw [hfind, if_pos rfl]
    have hset : holders (r.stage.set i RStage.doneFull) = 1 := by
      have hx := holders_set h RStage.doneFull
      simp at hx
      omega
    refine ⟨?_, ?_, ?_, ?_, ?_, ?_, ?_⟩
    · rw [show (⟨r.db, r.stage.set i RStage.doneFull⟩ : Race).stage =
        r.stage.set i RStage.doneFull from rfl, hset, ← hW1]
      exact h1
    · rw [show (⟨r.db, r.stage.set i RStage.doneFull⟩ : Race).stage =
        r.stage.set i RStage.doneFull from rfl, hset]
    · intro b hb
      obtain ⟨hbs, hbst, j, hj, hcand⟩ := h3 b hb
      refine ⟨hbs, hbst, j, ?_, hcand⟩
      have hji : i ≠ j := by
        intro he
        rw [← he, h] at hj
        exact RStage.noConfusion (Option.some.inj hj)
      rw [List.getElem?_set_ne hji]
      exact hj
    · intro hmem
      rcases List.mem_or_eq_of_mem_set hmem with hmem2 | he
      · exact h4 hmem2
      · exact RStage.noConfusion he
    · intro hmem
      rcases List.mem_or_eq_of_mem_set hmem with hmem2 | he
      · exact h5 hmem2
      · exact RStage.noConfusion he
    · intro hexist
      rw [show (⟨r.db, r.stage.set i RStage.doneFull⟩ : Race).stage =
        r.stage.set i RStage.doneFull from rfl, hset]
    · rw [show (⟨r.db, r.stage.set i RStage.doneFull⟩ : Race).stage =
        r.stage.set i RStage.doneFull from rfl, List.length_set]
      exact h7

theorem holders_replicate (n : Nat) : holders (List.replicate n RStage.start) = 0 := by
  unfold holders
  rw [List.countP_eq_zero]
  intro a ha
  rw [List.eq_of_mem_replicate ha]
  decide

theorem race_reachable_inv {sid : Nat} {actor : Nat → Nat} {st0 en0 : Int}
    {owner nid n : Nat} {r : Race}
    (hinj : Function.Injective actor)
    (hreach : Relation.ReflTransGen (RaceStep sid actor)
      (raceInit sid st0 en0 owner nid n) r) :
    RaceInv sid actor st0 en0 owner n r := by
  induction hreach with
  | refl =>
    refine ⟨?_, ?_, ?_, ?_, ?_, ?_, ?_⟩
    · rw [show (raceInit sid st0 en0 owner nid n).stage =
        List.replicate n RStage.start from rfl, holders_replicate]
      rfl
    · rw [show (raceInit sid st0 en0 owner nid n).stage =
        List.replicate n RStage.start from rfl, holders_replicate]
      omega
    · intro b hb
      exact absurd hb (List.not_mem_nil b)
    · intro hmem
      exact RStage.noConfusion (List.eq_of_mem_replicate hmem)
    · intro hmem
      exact RStage.noConfusion (List.eq_of_mem_replicate hmem)
    · rintro ⟨x, hx, hxor⟩
      have := List.eq_of_mem_replicate hx
      subst this
      rcases hxor with he | he <;> exact RStage.noConfusion he
    · exact List.length_replicate n RStage.start
  | tail hsteps hstep ih => exact raceStep_inv hinj hstep ih

/-- C9: starting from a slot with capacity 1 and bookedCount 0 and n ≥ 2
Book requests by pairwise distinct actors, whose atomic store operations
the scheduler interleaves arbitrarily, every completed run ends with
exactly one request committed (201) and the other n − 1 terminated in the
409 SlotFull outcome — the conditional findOneAndUpdate admits only one
winner, and every loser sees the existing slot in the follow-up existence
check. -/
theorem c9_race_single_winner (sid : Nat) (actor : Nat → Nat) (st0 en0 : Int)
    (owner nid n : Nat) {r : Race}
    (hinj : Function.Injective actor) (hn : 2 ≤ n)
    (hreach : Relation.ReflTransGen (RaceStep sid actor)
      (raceInit sid st0 en0 owner nid n) r)
    (hdone : ∀ x ∈ r.stage, x = RStage.doneOk ∨ x = RStage.doneFull) :
    r.stage.countP (fun x => decide (x = RStage.doneOk)) = 1 ∧
    r.stage.countP (fun x => decide (x = RStage.doneFull)) = n - 1 := by
  obtain ⟨h1, h2, h3, h4, h5, h6, h7⟩ := race_reachable_inv hinj hreach
  have hok : r.stage.countP (fun x => decide (x = RStage.doneOk)) = holders r.stage := by
    unfold holders
    refine List.countP_congr ?_
    intro x hx
    rcases hdone x hx with rfl | rfl <;> simp
  have hW1 : holders r.stage = 1 := by
    rcases Nat.eq_zero_or_pos (holders r.stage) with hz | hp
    · exfalso
      have hne : r.stage ≠ [] := by
        intro hnil
        rw [hnil] at h7
        simp at h7
        omega
      obtain ⟨x, hx⟩ := List.exists_mem_of_ne_nil r.stage hne
      rcases hdone x hx with rfl | rfl
      · have hpos : 0 < r.stage.countP (fun x => decide (x = RStage.doneOk)) :=
          List.countP_pos_iff.mpr ⟨_, hx, by simp⟩
        omega
      · have := h6 ⟨_, hx, Or.inr rfl⟩
        omega
    · omega
  refine ⟨by rw [hok, hW1], ?_⟩
  have hsplit := List.length_eq_countP_add_countP
    (fun x => decide (x = RStage.doneOk)) r.stage
  have hfull : r.stage.countP
      (fun a => decide ¬(decide (a = RStage.doneOk) = true)) =
      r.stage.countP (fun x => decide (x = RStage.doneFull)) := by
    refine List.countP_congr ?_
    intro x hx
    rcases hdone x hx with rfl | rfl <;> simp
  rw [hfull] at hsplit
  omega

/-- Final state of the concrete two-request race used as the C9 witness:
request 0 booked the seat, request 1 lost the conditional update. -/
def c9Final : Race :=
  ⟨⟨[⟨0, 0, 10, 1, 1, 9⟩], [⟨1, 0, 0, BStatus.BOOKED⟩], 2⟩,
   [RStage.doneOk, RStage.doneFull]⟩

theorem c9_witness :
    (c9Final.stage.countP (fun x => decide (x = RStage.doneOk)) = 1 ∧
     c9Final.stage.countP (fun x => decide (x = RStage.doneFull)) = 2 - 1) :=
  c9_race_single_winner 0 id 0 10 9 1 2
    Function.injective_id (by omega)
    (Relation.ReflTransGen.head
      (RaceStep.fastFail _ 0 rfl)
      (Relation.ReflTransGen.head
        (RaceStep.fastFail _ 1 rfl)
        (Relation.ReflTransGen.head
          (RaceStep.incWin _ 0 ⟨0, 0, 10, 1, 1, 9⟩
            ⟨[⟨0, 0, 10, 1, 1, 9⟩], [], 1⟩ rfl rfl)
          (Relation.ReflTransGen.head
            (RaceStep.incLose _ 1 rfl rfl)
            (Relation.ReflTransGen.head
              (RaceStep.insertOk _ 0 rfl rfl)
              (Relation.ReflTransGen.head
                (RaceStep.classify _ 1 rfl)
                Relation.ReflTransGen.refl))))))
    (by decide)

end BookingApp
